import Mathlib

/-!
Verification of the dispatch-and-metrics harness of the Master-ASR-LLM
repository (directory `test/` of the repository).

The Python source is embedded shallowly:

* paths are strings; the `pathlib` accessors `name`, `stem`, `suffix`,
  `with_name` are reimplemented on strings following CPython's `pathlib`
  (a suffix starts at the last dot of the final component, provided that
  dot is neither the first nor the last character of the component);
* exceptions are modelled with `Except`/`Option`: a Python callable that
  may raise becomes a function into `Except String α`, a `try/except`
  wrapper returning `None` becomes a function into `Option α`;
* `float` elapsed times are modelled as `ℚ` (they are only stored and
  compared, never subjected to rounding in the properties below);
* the external scoring libraries (`jiwer`, `rouge_score`, `bert_score`,
  `nltk`) are opaque parameters, as the specification treats them as
  external collaborators;
* the filesystem, where an operation consults it, is passed explicitly
  (a list of entries, or a content lookup function).
-/

set_option autoImplicit false

namespace MasterASRLLM

instance {ε α : Type _} [DecidableEq ε] [DecidableEq α] : DecidableEq (Except ε α)
  | Except.ok a, Except.ok b => decidable_of_iff (a = b) (by simp)
  | Except.ok _, Except.error _ => isFalse (by simp)
  | Except.error _, Except.ok _ => isFalse (by simp)
  | Except.error a, Except.error b => decidable_of_iff (a = b) (by simp)

/-! ### Path helpers (CPython `pathlib` on POSIX strings) -/

/-- Split a character list at every occurrence of `c` (Python `str.split`:
`"".split(c)` is `[""]`, separators are not kept). -/
def splitOnChar (c : Char) : List Char → List (List Char)
  | [] => [[]]
  | x :: xs =>
    let r := splitOnChar c xs
    if x = c then [] :: r else (x :: r.headD []) :: r.tail

/-- `Path(p).name`: the final `/`-separated component. -/
def path_name (p : String) : String :=
  String.mk ((splitOnChar '/' p.toList).getLastD [])

/-- Index of the last `.` in a component, if any (Python `str.rfind`). -/
def name_dot_idx (n : String) : Option Nat :=
  ((n.toList.enum.filter (fun q => q.2 = '.')).map (fun q => q.1)).getLast?

/-- Suffix of a final component: CPython keeps `name[i:]` for the last dot
index `i` when `0 < i < len(name) - 1`, else the suffix is empty. -/
def name_suffix (n : String) : String :=
  match name_dot_idx n with
  | some i => if 0 < i ∧ i < n.toList.length - 1 then String.mk (n.toList.drop i) else ""
  | none => ""

/-- Stem of a final component (the component minus `name_suffix`). -/
def name_stem (n : String) : String :=
  match name_dot_idx n with
  | some i => if 0 < i ∧ i < n.toList.length - 1 then String.mk (n.toList.take i) else n
  | none => n

/-- `Path(p).suffix`. -/
def path_suffix (p : String) : String := name_suffix (path_name p)

/-- `Path(p).stem`. -/
def path_stem (p : String) : String := name_stem (path_name p)

/-! ### File discovery (`find_files`, src/test/utils/fs.py) -/

/-- Kind of a filesystem node, as distinguished by `pathlib`'s
`is_dir` / `is_file` predicates. -/
inductive FKind
  | file
  | dir
  | other
deriving DecidableEq

/-- One entry strictly below the root handed to `find_files`: its path
components relative to the root, and its kind. -/
structure FSEntry where
  rel : List String
  kind : FKind
deriving DecidableEq

/-- `directory_path / relative`: how `Path.rglob` spells the paths it
yields — the textual root joined with the relative location. -/
def joinPath (root : String) (rel : List String) : String :=
  root ++ "/" ++ String.intercalate "/" rel

/-- A POSIX path string is absolute exactly when it starts with `/`. -/
def isAbsolutePath (p : String) : Bool := p.toList.headD ' ' = '/'

/-- Embedding of `find_files(directory, extension)` (src/test/utils/fs.py).
The filesystem is presented as the kind of the root path (`none` when the
path does not exist) plus the list of entries `rglob("*")` reaches below
the root.  The source raises `ValueError` when the root is not a directory
and otherwise yields every regular file whose `suffix` equals `extension`,
spelled as the given root joined with the file's relative location. -/
def find_files (directory : String) (rootKind : Option FKind) (entries : List FSEntry)
    (extension : String) : Except String (List String) :=
  if rootKind ≠ some FKind.dir then
    Except.error ("the provided path '" ++ directory ++ "' is not a valid directory.")
  else
    Except.ok ((entries.filter
      (fun e => e.kind = FKind.file ∧ name_suffix (e.rel.getLastD "") = extension)).map
      (fun e => joinPath directory e.rel))

example : path_stem "a/b/x.mp3" = "x" := by decide
example : path_suffix "a/b/x.mp3" = ".mp3" := by decide
example : path_suffix "a/b/.txt" = "" := by decide
example : path_stem "a/b/.txt" = ".txt" := by decide
example : path_stem "a/b/y.tar.gz" = "y.tar" := by decide
example : path_suffix "a/b/y.tar.gz" = ".gz" := by decide
example : path_stem "x." = "x." := by decide

example :
    find_files "d" (some FKind.dir) [⟨["sub", "a.mp3"], FKind.file⟩, ⟨["sub"], FKind.dir⟩,
      ⟨["b.txt"], FKind.file⟩] ".mp3" = Except.ok ["d/sub/a.mp3"] := by decide

theorem toList_append (a b : String) : (a ++ b).toList = a.toList ++ b.toList := rfl

theorem isAbsolutePath_joinPath (directory : String) (rel : List String)
    (hd : directory ≠ "") : isAbsolutePath (joinPath directory rel) = isAbsolutePath directory := by
  obtain ⟨cs⟩ := directory
  cases cs with
  | nil => exact absurd rfl hd
  | cons c cs' =>
    simp [isAbsolutePath, joinPath, toList_append]

/-- Claim C8 counterexample: for the relative root `"d"` holding one regular
file `a.mp3`, `find_files` yields the path `"d/a.mp3"`, which is not an
absolute path — refuting "it yields exactly the absolute paths of regular
files under the root". -/
theorem find_files_not_absolute_counterexample :
    find_files "d" (some FKind.dir) [⟨["a.mp3"], FKind.file⟩] ".mp3" =
      Except.ok ["d/a.mp3"] ∧
    isAbsolutePath "d/a.mp3" = false := by decide

/-- Claim C8 (amended): for every root path that does not exist or is not a
directory, `find_files` fails with the invalid-directory error before
yielding anything; for every valid root it yields exactly the paths of the
regular files under the root (recursively) whose suffix case-sensitively
equals the given extension — excluding directories and other non-file
entries — each spelled as the given root joined with the file's relative
location, hence absolute exactly when the given root path is absolute. -/
theorem find_files_spec (directory : String) (rootKind : Option FKind)
    (entries : List FSEntry) (extension : String) :
    (rootKind ≠ some FKind.dir →
      find_files directory rootKind entries extension =
        Except.error ("the provided path '" ++ directory ++ "' is not a valid directory.")) ∧
    (rootKind = some FKind.dir →
      ∃ l, find_files directory rootKind entries extension = Except.ok l ∧
        (∀ p, p ∈ l ↔ ∃ e ∈ entries, e.kind = FKind.file ∧
          name_suffix (e.rel.getLastD "") = extension ∧ p = joinPath directory e.rel) ∧
        (directory ≠ "" → ∀ p ∈ l, isAbsolutePath p = isAbsolutePath directory)) := by
  constructor
  · intro h
    simp [find_files, h]
  · intro h
    subst h
    refine ⟨(entries.filter
        (fun (e : FSEntry) => e.kind = FKind.file ∧ name_suffix (e.rel.getLastD "") = extension)).map
        (fun (e : FSEntry) => joinPath directory e.rel), rfl, ?_, ?_⟩
    · intro p
      constructor
      · intro hp
        obtain ⟨e, he, hpe⟩ := List.mem_map.mp hp
        obtain ⟨hee, hcond⟩ := List.mem_filter.mp he
        have hc := of_decide_eq_true hcond
        exact ⟨e, hee, hc.1, hc.2, hpe.symm⟩
      · rintro ⟨e, he, hkind, hsuf, rfl⟩
        exact List.mem_map.mpr ⟨e, List.mem_filter.mpr ⟨he, decide_eq_true ⟨hkind, hsuf⟩⟩, rfl⟩
    · intro hd p hp
      obtain ⟨e, _, hpe⟩ := List.mem_map.mp hp
      rw [← hpe]
      exact isAbsolutePath_joinPath directory e.rel hd

/-- Witness for `find_files_spec`: both branches instantiated on concrete
inputs. -/
theorem find_files_spec_witness :
    find_files "/r" none ([] : List FSEntry) ".mp3" =
      Except.error ("the provided path '" ++ "/r" ++ "' is not a valid directory.") ∧
    (∃ l, find_files "/r" (some FKind.dir) [⟨["a.mp3"], FKind.file⟩] ".mp3" = Except.ok l ∧
      (∀ p, p ∈ l ↔ ∃ e ∈ [(⟨["a.mp3"], FKind.file⟩ : FSEntry)], e.kind = FKind.file ∧
        name_suffix (e.rel.getLastD "") = ".mp3" ∧ p = joinPath "/r" e.rel) ∧
      ("/r" ≠ "" → ∀ p ∈ l, isAbsolutePath p = isAbsolutePath "/r")) :=
  ⟨(find_files_spec "/r" none [] ".mp3").1 (by decide),
   (find_files_spec "/r" (some FKind.dir) [⟨["a.mp3"], FKind.file⟩] ".mp3").2 rfl⟩

/-! ### `ASRProcessor.parse` (src/test/asr/processor.py, lines 101-111) -/

/-- `file_path.with_name(file_path.stem + ".txt")`: the output path of one
`parse` unit. -/
def with_txt_name (p : String) : String :=
  let comps := splitOnChar '/' p.toList
  String.mk (List.intercalate ['/'] (comps.dropLast ++ [(path_stem p).toList ++ ".txt".toList]))

/-- Embedding of `ASRProcessor.parse`: iterate the discovered json files in
order, run the vendor `extract_text` on each, write the text next to the
input; there is no try/except around the parser call, so the first failure
propagates.  Returns the `(output path, text)` writes actually performed
before the abort, and the propagated error, if any. -/
def ASRProcessor_parse (extract_text : String → Except String String) :
    List String → List (String × String) × Option String
  | [] => ([], none)
  | f :: fs =>
    match extract_text f with
    | Except.error e => ([], some e)
    | Except.ok t =>
      let r := ASRProcessor_parse extract_text fs
      ((with_txt_name f, t) :: r.1, r.2)

/-- Claim C7: `asr parse` does not contain per-item extractor failures — on
the first file (in discovery order) where the vendor `extract_text` raises,
the whole invocation aborts with that error propagated, and no output is
written for that file or any later file (only the files before it have
their `.txt` outputs written). -/
theorem asr_parse_aborts_at_first_error (extract_text : String → Except String String)
    (pre post : List String) (bad : String) (e : String)
    (hpre : ∀ f ∈ pre, ∃ t, extract_text f = Except.ok t)
    (hbad : extract_text bad = Except.error e) :
    (ASRProcessor_parse extract_text (pre ++ bad :: post)).2 = some e ∧
    (ASRProcessor_parse extract_text (pre ++ bad :: post)).1.map Prod.fst =
      pre.map with_txt_name := by
  induction pre with
  | nil => simp [ASRProcessor_parse, hbad]
  | cons f fs ih =>
    obtain ⟨t, ht⟩ := hpre f (List.mem_cons_self f fs)
    have := ih (fun g hg => hpre g (List.mem_cons_of_mem f hg))
    simp only [List.cons_append, ASRProcessor_parse, ht, List.map_cons, List.append_eq]
    exact ⟨this.1, by rw [this.2]⟩

/-- Witness for `asr_parse_aborts_at_first_error` at a concrete parser and
file list. -/
theorem asr_parse_aborts_at_first_error_witness :
    (ASRProcessor_parse
        (fun p => if p = "d/a.json" then Except.ok "T" else Except.error "boom")
        (["d/a.json"] ++ "d/b.json" :: ["d/c.json"])).2 = some "boom" ∧
    (ASRProcessor_parse
        (fun p => if p = "d/a.json" then Except.ok "T" else Except.error "boom")
        (["d/a.json"] ++ "d/b.json" :: ["d/c.json"])).1.map Prod.fst =
      ["d/a.json"].map with_txt_name :=
  asr_parse_aborts_at_first_error
    (fun p => if p = "d/a.json" then Except.ok "T" else Except.error "boom")
    ["d/a.json"] ["d/c.json"] "d/b.json" "boom"
    (by intro f hf; simp at hf; subst hf; exact ⟨"T", by decide⟩)
    (by decide)

/-! ### Batch runners (`ASRProcessor.transcribe`, `LLMProcessor.summarize`) -/

/-- Whether a modelled Python call raises. -/
def exceptFails {α : Type _} : Except String α → Bool
  | Except.ok _ => false
  | Except.error _ => true

/-- `_transcriber_wrapper` (src/test/asr/processor.py, lines 177-194): the
per-unit try/except — an exception from the vendor callable is caught and
logged, and the wrapper returns `None` instead of propagating. -/
def _transcriber_wrapper (transcriber : String → Except String String)
    (file_path : String) : Option String :=
  match transcriber file_path with
  | Except.ok output_path => some output_path
  | Except.error _ => none

/-- The counting loop shared by both batch runners: `count += 1` for every
unit whose wrapped call returns non-`None`.  `order` is the order results
are consumed in — discovery order in the sequential branch, completion
order under the thread pool. -/
def processed_count (unit : String → Option String) (order : List String) : Nat :=
  order.foldl (fun c f => if (unit f).isSome then c + 1 else c) 0

/-- Output path of one successful unit:
`Path(output_dir) / (Path(file_path).stem + ext)` — every vendor
`transcribe_audio` writes this shape (`.json` for the cloud vendors,
`.txt` for whisper/vosk/wav2vec2), and `_summarizer_wrapper` writes it
with `.json`. -/
def unit_output_path (output_dir ext file_path : String) : String :=
  output_dir ++ "/" ++ path_stem file_path ++ ext

/-- The distinct output files present after a batch run: one write per
successful unit; writes to an equal path overwrite each other. -/
def batch_output_files (unit : String → Option String) (output_dir ext : String)
    (files : List String) : List String :=
  ((files.filter (fun f => (unit f).isSome)).map (unit_output_path output_dir ext)).dedup

/-- Counts reported by the final log line of `ASRProcessor.transcribe`
(lines 95-99): `(count_proccessed_file, len(mp3_files))`. -/
def ASRProcessor_transcribe_report (transcriber : String → Except String String)
    (mp3_files order : List String) : Nat × Nat :=
  (processed_count (_transcriber_wrapper transcriber) order, mp3_files.length)

/-- `_summarizer_wrapper` (src/test/llm/processor.py, lines 177-207): reads
the transcript, invokes the vendor summarizer, writes the result to
`output_dir / (stem + ".json")` and returns that path; any exception is
caught and `None` returned.  `content` is the filesystem read. -/
def _summarizer_wrapper (summarizer : String → Except String String)
    (content : String → String) (output_dir : String) (transcript_path : String) :
    Option String :=
  match summarizer (content transcript_path) with
  | Except.ok _result => some (unit_output_path output_dir ".json" transcript_path)
  | Except.error _ => none

/-- The resume filter of `LLMProcessor.summarize` (lines 58-66): inputs
whose stem already appears among the stems of the existing output `.json`
files are dropped before dispatch. -/
def LLM_summarize_targets (exist_stems : List String) (dataset_files : List String) :
    List String :=
  dataset_files.filter (fun x => ¬ exist_stems.contains (path_stem x))

/-- Counts reported by the final log line of `LLMProcessor.summarize`
(lines 80-84): `(count_processed_transcript, len(transcript_paths))` —
note the total is the length of the post-filter list. -/
def LLMProcessor_summarize_report (summarizer : String → Except String String)
    (content : String → String) (output_dir : String)
    (exist_stems dataset_files order : List String) : Nat × Nat :=
  (processed_count (_summarizer_wrapper summarizer content output_dir) order,
   (LLM_summarize_targets exist_stems dataset_files).length)

theorem countP_add_countP_not {α : Type _} (p : α → Bool) (l : List α) :
    l.countP p + l.countP (fun a => !(p a)) = l.length := by
  induction l with
  | nil => rfl
  | cons a l ih => by_cases h : p a <;> simp [List.countP_cons, h, ← ih] <;> omega

theorem foldl_count {α : Type _} (p : α → Bool) (l : List α) (n : Nat) :
    l.foldl (fun c f => if p f then c + 1 else c) n = n + l.countP p := by
  induction l generalizing n with
  | nil => simp
  | cons a l ih => by_cases h : p a <;> simp [List.countP_cons, h, ih] <;> omega

theorem processed_count_eq_countP (unit : String → Option String) (order : List String) :
    processed_count unit order = order.countP (fun f => (unit f).isSome) := by
  simpa using foldl_count (fun f => (unit f).isSome) order 0

theorem transcriber_wrapper_isSome (transcriber : String → Except String String)
    (f : String) :
    (_transcriber_wrapper transcriber f).isSome = !(exceptFails (transcriber f)) := by
  unfold _transcriber_wrapper exceptFails
  cases transcriber f <;> rfl

theorem summarizer_wrapper_isSome (summarizer : String → Except String String)
    (content : String → String) (output_dir f : String) :
    (_summarizer_wrapper summarizer content output_dir f).isSome =
      !(exceptFails (summarizer (content f))) := by
  unfold _summarizer_wrapper exceptFails
  cases summarizer (content f) <;> rfl

theorem string_eq_of_toList_eq {a b : String} (h : a.toList = b.toList) : a = b := by
  obtain ⟨xs⟩ := a
  obtain ⟨ys⟩ := b
  exact congrArg String.mk (by simpa [String.toList] using h)

theorem unit_output_path_inj (output_dir ext x y : String)
    (h : unit_output_path output_dir ext x = unit_output_path output_dir ext y) :
    path_stem x = path_stem y := by
  unfold unit_output_path at h
  have h2 : ((output_dir.toList ++ "/".toList) ++ (path_stem x).toList) ++ ext.toList =
      ((output_dir.toList ++ "/".toList) ++ (path_stem y).toList) ++ ext.toList := by
    have := congrArg String.toList h
    simpa [toList_append, List.append_assoc] using this
  exact string_eq_of_toList_eq
    (List.append_cancel_left (List.append_cancel_right h2))

theorem countP_isSome_eq_sub (unit : String → Option String)
    (fails : String → Bool) (files : List String)
    (hcomp : ∀ f, (unit f).isSome = !(fails f)) :
    files.countP (fun f => (unit f).isSome) = files.length - files.countP fails := by
  have h1 : files.countP fails + files.countP (fun f => !(fails f)) = files.length :=
    countP_add_countP_not fails files
  have h2 : files.countP (fun f => (unit f).isSome) = files.countP (fun f => !(fails f)) :=
    List.countP_congr (fun f _ => by rw [hcomp f])
  omega

theorem batch_output_files_length (unit : String → Option String)
    (output_dir ext : String) (files : List String) (hnd : files.Nodup)
    (hinj : ∀ x ∈ files, ∀ y ∈ files, path_stem x = path_stem y → x = y) :
    (batch_output_files unit output_dir ext files).length =
      files.countP (fun f => (unit f).isSome) := by
  unfold batch_output_files
  rw [List.dedup_eq_self.mpr, List.length_map, ← List.countP_eq_length_filter]
  exact List.Nodup.map_on
    (fun x hx y hy hxy =>
      hinj x (List.mem_of_mem_filter hx) y (List.mem_of_mem_filter hy)
        (unit_output_path_inj output_dir ext x y hxy))
    (hnd.filter _)

theorem LLM_summarize_targets_nil_exist (dataset_files : List String) :
    LLM_summarize_targets [] dataset_files = dataset_files := by
  unfold LLM_summarize_targets
  simp [List.contains]

/-- Claim C1 counterexample: the discovered input set
`["a/x.mp3", "b/x.mp3"]` (N = 2, distinct files in two subdirectories with
the same stem) with a vendor callable that always succeeds (K = 0): the run
reports `(2, 2)`, but both successful units write the same output path
`o/x.json`, so exactly one output file exists — not N - K = 2.  This
refutes "produces exactly N-K output files" as universally stated. -/
theorem run_batch_output_count_counterexample :
    ASRProcessor_transcribe_report (fun _ => Except.ok "out")
        ["a/x.mp3", "b/x.mp3"] ["a/x.mp3", "b/x.mp3"] = (2, 2) ∧
    ["a/x.mp3", "b/x.mp3"].countP
        (fun f => exceptFails ((fun _ => Except.ok "out") f)) = 0 ∧
    (batch_output_files (_transcriber_wrapper (fun _ => Except.ok "out"))
        "o" ".json" ["a/x.mp3", "b/x.mp3"]).length = 1 ∧
    (1 : Nat) ≠ 2 - 0 := by decide

/-- Claim C1 (amended): for every discovered input set of size N where
exactly K invocations of the registered vendor callable raise
(`0 ≤ K ≤ N`), the batch run completes without raising (the runner is a
total function), reports processed count `N - K` and total count `N`, in
both the sequential branch (results consumed in discovery order) and the
thread-pool branch (results consumed in an arbitrary completion order),
for both `ASRProcessor.transcribe` and `LLMProcessor.summarize` (fresh
output directory); each per-item exception is caught by the per-unit
wrapper, which returns the failure sentinel `None` instead of propagating;
and — provided the discovered inputs have pairwise distinct stems, since
two inputs with an equal stem write the same output path and the later
write overwrites the earlier — exactly `N - K` output files exist after
the run. -/
theorem run_batch_partial_failure
    (transcriber summarizer : String → Except String String)
    (content : String → String) (output_dir ext : String)
    (mp3_files asr_order txt_files llm_order : List String)
    (hasr : asr_order.Perm mp3_files) (hllm : llm_order.Perm txt_files) :
    (∀ f e, transcriber f = Except.error e → _transcriber_wrapper transcriber f = none) ∧
    (∀ f e, summarizer (content f) = Except.error e →
      _summarizer_wrapper summarizer content output_dir f = none) ∧
    ASRProcessor_transcribe_report transcriber mp3_files mp3_files =
      (mp3_files.length - mp3_files.countP (fun f => exceptFails (transcriber f)),
        mp3_files.length) ∧
    ASRProcessor_transcribe_report transcriber mp3_files asr_order =
      (mp3_files.length - mp3_files.countP (fun f => exceptFails (transcriber f)),
        mp3_files.length) ∧
    LLMProcessor_summarize_report summarizer content output_dir [] txt_files llm_order =
      (txt_files.length - txt_files.countP (fun f => exceptFails (summarizer (content f))),
        txt_files.length) ∧
    (mp3_files.Nodup →
      (∀ x ∈ mp3_files, ∀ y ∈ mp3_files, path_stem x = path_stem y → x = y) →
      (batch_output_files (_transcriber_wrapper transcriber) output_dir ext
          asr_order).length =
        mp3_files.length - mp3_files.countP (fun f => exceptFails (transcriber f))) ∧
    (txt_files.Nodup →
      (∀ x ∈ txt_files, ∀ y ∈ txt_files, path_stem x = path_stem y → x = y) →
      (batch_output_files (_summarizer_wrapper summarizer content output_dir) output_dir
          ".json" llm_order).length =
        txt_files.length -
          txt_files.countP (fun f => exceptFails (summarizer (content f)))) := by
  have hasr_count : ∀ order : List String, order.Perm mp3_files →
      processed_count (_transcriber_wrapper transcriber) order =
        mp3_files.length - mp3_files.countP (fun f => exceptFails (transcriber f)) := by
    intro order hperm
    rw [processed_count_eq_countP,
      hperm.countP_congr (fun f _ => rfl),
      countP_isSome_eq_sub _ (fun f => exceptFails (transcriber f)) mp3_files
        (transcriber_wrapper_isSome transcriber)]
  have hllm_count :
      processed_count (_summarizer_wrapper summarizer content output_dir) llm_order =
        txt_files.length - txt_files.countP (fun f => exceptFails (summarizer (content f))) := by
    rw [processed_count_eq_countP,
      hllm.countP_congr (fun f _ => rfl),
      countP_isSome_eq_sub _ (fun f => exceptFails (summarizer (content f))) txt_files
        (summarizer_wrapper_isSome summarizer content output_dir)]
  refine ⟨?_, ?_, ?_, ?_, ?_, ?_, ?_⟩
  · intro f e he
    unfold _transcriber_wrapper
    rw [he]
  · intro f e he
    unfold _summarizer_wrapper
    rw [he]
  · unfold ASRProcessor_transcribe_report
    rw [hasr_count mp3_files (List.Perm.refl mp3_files)]
  · unfold ASRProcessor_transcribe_report
    rw [hasr_count asr_order hasr]
  · unfold LLMProcessor_summarize_report
    rw [hllm_count, LLM_summarize_targets_nil_exist]
  · intro hnd hinj
    rw [batch_output_files_length _ _ _ _ (hasr.nodup_iff.mpr hnd)
        (fun x hx y hy h => hinj x (hasr.mem_iff.mp hx) y (hasr.mem_iff.mp hy) h),
      hasr.countP_congr (fun f _ => rfl),
      countP_isSome_eq_sub _ (fun f => exceptFails (transcriber f)) mp3_files
        (transcriber_wrapper_isSome transcriber)]
  · intro hnd hinj
    rw [batch_output_files_length _ _ _ _ (hllm.nodup_iff.mpr hnd)
        (fun x hx y hy h => hinj x (hllm.mem_iff.mp hx) y (hllm.mem_iff.mp hy) h),
      hllm.countP_congr (fun f _ => rfl),
      countP_isSome_eq_sub _ (fun f => exceptFails (summarizer (content f))) txt_files
        (summarizer_wrapper_isSome summarizer content output_dir)]

/-- Witness for `run_batch_partial_failure`: N = 2 ASR inputs of which
K = 1 fails, consumed in reversed completion order; one LLM input that
succeeds. -/
theorem run_batch_partial_failure_witness :
    ASRProcessor_transcribe_report
        (fun f => if f = "a/x.mp3" then Except.error "net" else Except.ok "ok")
        ["a/x.mp3", "b/y.mp3"] ["b/y.mp3", "a/x.mp3"] = (1, 2) ∧
    (batch_output_files
        (_transcriber_wrapper
          (fun f => if f = "a/x.mp3" then Except.error "net" else Except.ok "ok"))
        "o" ".json" ["b/y.mp3", "a/x.mp3"]).length = 1 ∧
    LLMProcessor_summarize_report (fun _ => Except.ok "s") (fun _ => "t") "o" []
        ["d/u.txt"] ["d/u.txt"] = (1, 1) := by
  have h := run_batch_partial_failure
      (fun f => if f = "a/x.mp3" then Except.error "net" else Except.ok "ok")
      (fun _ => Except.ok "s") (fun _ => "t") "o" ".json"
      ["a/x.mp3", "b/y.mp3"] ["b/y.mp3", "a/x.mp3"] ["d/u.txt"] ["d/u.txt"]
      (List.Perm.swap "a/x.mp3" "b/y.mp3" []) (List.Perm.refl ["d/u.txt"])
  refine ⟨h.2.2.2.1.trans (by decide), ?_, h.2.2.2.2.1.trans (by decide)⟩
  exact (h.2.2.2.2.2.1 (by decide) (by decide)).trans (by decide)

/-- Claim C3 counterexample: a second `summarize` run over a dataset with
one discovered input `d/x.txt` whose output stem `x` already exists
reports `(0, 0)` — the logged total is the length of the post-filter list
— not `(0, 1)` as the claim's `(0, N)` with N the discovered count
states. -/
theorem summarize_rerun_counterexample :
    LLMProcessor_summarize_report (fun t => Except.ok t) (fun _ => "c") "o"
        ["x"] ["d/x.txt"] [] = (0, 0) ∧
    ((0 : Nat), (0 : Nat)) ≠ ((0 : Nat), (1 : Nat)) := by decide

/-- Claim C3 (amended): running `summarize` a second time against the same
dataset and output directories processes zero files — every input whose
output JSON already exists, matched by filename stem, is filtered out
before dispatch — and the second run reports counts `(0, 0)`: the total
the final log line reports is the length of the post-filter list, which is
zero on the second run, not the number of discovered dataset inputs. -/
theorem summarize_rerun_idempotent (summarizer : String → Except String String)
    (content : String → String) (output_dir : String)
    (exist_stems dataset_files : List String) :
    (∀ f ∈ dataset_files, path_stem f ∈ exist_stems →
      f ∉ LLM_summarize_targets exist_stems dataset_files) ∧
    ((∀ f ∈ dataset_files, path_stem f ∈ exist_stems) →
      LLM_summarize_targets exist_stems dataset_files = [] ∧
      LLMProcessor_summarize_report summarizer content output_dir exist_stems
        dataset_files [] = (0, 0)) := by
  constructor
  · intro f _ hstem hmem
    have := (List.mem_filter.mp hmem).2
    simp only [decide_not, Bool.not_eq_true', decide_eq_false_iff_not] at this
    exact this (List.elem_iff.mpr hstem)
  · intro hall
    have htargets : LLM_summarize_targets exist_stems dataset_files = [] := by
      unfold LLM_summarize_targets
      rw [List.filter_eq_nil_iff]
      intro f hf
      simp only [decide_not, Bool.not_eq_true', decide_eq_false_iff_not, not_not]
      exact List.elem_iff.mpr (hall f hf)
    refine ⟨htargets, ?_⟩
    unfold LLMProcessor_summarize_report
    rw [htargets]
    rfl

/-- Witness for `summarize_rerun_idempotent`: one dataset input whose
output stem pre-exists. -/
theorem summarize_rerun_idempotent_witness :
    ("d/x.txt" ∈ (["d/x.txt"] : List String) → path_stem "d/x.txt" ∈ (["x"] : List String) →
      "d/x.txt" ∉ LLM_summarize_targets ["x"] ["d/x.txt"]) ∧
    (LLM_summarize_targets ["x"] ["d/x.txt"] = [] ∧
      LLMProcessor_summarize_report (fun t => Except.ok t) (fun _ => "c") "o"
        ["x"] ["d/x.txt"] [] = (0, 0)) :=
  ⟨fun hf hs =>
    (summarize_rerun_idempotent (fun t => Except.ok t) (fun _ => "c") "o"
      ["x"] ["d/x.txt"]).1 "d/x.txt" hf hs,
   (summarize_rerun_idempotent (fun t => Except.ok t) (fun _ => "c") "o"
      ["x"] ["d/x.txt"]).2 (by decide)⟩

/-! ### Log timing extraction (`_parse_log_file`, src/test/asr/processor.py,
lines 197-255)

A log line is abstracted to the outcome of the three regexes the source
applies to it: whether `re_header` matched (and the captured `func_name`),
whether the line carries the `"transcription completed, output saved to"`
phrase directly before its extras block, and the
`current_file`/`elapsed_time_sec` extras when present.  `re_complete`
matches exactly when the phrase and the extras are both present;
`re_operation_complete` (searched in the message) matches exactly when the
extras are present. -/

structure LogLine where
  header_ok : Bool
  func_name : String
  completed_saved : Bool
  extra : Option (String × ℚ)
deriving DecidableEq

/-- `LogData` (src/test/utils/logs.py). -/
structure LogData where
  file_name : String
  total_elapsed_time_sec : ℚ
  operation_elapsed_time_sec : ℚ
deriving DecidableEq

/-- One value of the `events` dict: the two optional keys the source
stores. -/
structure EventEntry where
  total_elapsed_time : Option ℚ
  operation_elapsed_time : Option ℚ
deriving DecidableEq

/-- `re_complete.search(line)`. -/
def completeMatch (l : LogLine) : Option (String × ℚ) :=
  if l.completed_saved then l.extra else none

/-- `re_operation_complete.search(message)`. -/
def operationMatch (l : LogLine) : Option (String × ℚ) := l.extra

/-- First-match lookup in an insertion-ordered Python dict modelled as an
association list. -/
def lookupEvent {β : Type _} : List (String × β) → String → Option β
  | [], _ => none
  | (q, en) :: rest, p => if q = p then some en else lookupEvent rest p

/-- `d.setdefault(p, dflt)` followed by a value assignment: update in
place when the key exists, else append a fresh entry at the end. -/
def updateEvent {β : Type _} (events : List (String × β)) (p : String)
    (dflt : β) (f : β → β) : List (String × β) :=
  if (lookupEvent events p).isSome then
    events.map (fun qe => if qe.1 = p then (qe.1, f qe.2) else qe)
  else
    events ++ [(p, f dflt)]

/-- The body of the line loop of `_parse_log_file`: skip lines whose
header does not match; a `re_complete` match stores the total elapsed
time (regardless of `func_name`); otherwise a line whose `func_name` is
`transcribe_audio` carrying extras stores the operation elapsed time. -/
def logStep (events : List (String × EventEntry)) (l : LogLine) :
    List (String × EventEntry) :=
  if ¬ l.header_ok then events
  else
    match completeMatch l with
    | some (p, e) => updateEvent events p ⟨none, none⟩ (fun en => ⟨some e, en.operation_elapsed_time⟩)
    | none =>
      if l.func_name = "transcribe_audio" then
        match operationMatch l with
        | some (p, e) => updateEvent events p ⟨none, none⟩ (fun en => ⟨en.total_elapsed_time, some e⟩)
        | none => events
      else events

/-- Embedding of `_parse_log_file`: fold the line loop over the log, then
emit one `LogData` per stored path that acquired a total-time entry, the
operation time defaulting to the total time. -/
def _parse_log_file (lines : List LogLine) : List LogData :=
  (lines.foldl logStep []).filterMap (fun pe =>
    match pe.2.total_elapsed_time with
    | none => none
    | some t => some ⟨path_stem pe.1, t, pe.2.operation_elapsed_time.getD t⟩)

/-- The total-time write a single line performs for path `p`, if any. -/
def totalWrite (l : LogLine) (p : String) : Option ℚ :=
  if l.header_ok then
    match completeMatch l with
    | some (q, e) => if q = p then some e else none
    | none => none
  else none

/-- The operation-time write a single line performs for path `p`, if
any. -/
def opWrite (l : LogLine) (p : String) : Option ℚ :=
  if l.header_ok then
    match completeMatch l with
    | some _ => none
    | none =>
      if l.func_name = "transcribe_audio" then
        match operationMatch l with
        | some (q, e) => if q = p then some e else none
        | none => none
      else none
  else none

/-- The last total-time value written for `p` over the whole log ("last
such line wins"). -/
def lastTotal (lines : List LogLine) (p : String) : Option ℚ :=
  lines.foldl (fun acc l =>
    match totalWrite l p with
    | some e => some e
    | none => acc) none

/-- The last operation-time value written for `p` over the whole log. -/
def lastOp (lines : List LogLine) (p : String) : Option ℚ :=
  lines.foldl (fun acc l =>
    match opWrite l p with
    | some e => some e
    | none => acc) none

/-- The effect of one line on the dict entry of a single path `p`. -/
def stepEntry (l : LogLine) (p : String) (e? : Option EventEntry) : Option EventEntry :=
  match totalWrite l p with
  | some e => some ⟨some e, ((e?.getD ⟨none, none⟩)).operation_elapsed_time⟩
  | none =>
    match opWrite l p with
    | some e => some ⟨((e?.getD ⟨none, none⟩)).total_elapsed_time, some e⟩
    | none => e?

theorem lookup_map_update {β : Type _} (events : List (String × β)) (p q : String)
    (f : β → β) :
    lookupEvent (events.map (fun qe => if qe.1 = p then (qe.1, f qe.2) else qe)) q =
      if p = q then (lookupEvent events p).map f else lookupEvent events q := by
  induction events with
  | nil => by_cases h : p = q <;> simp [lookupEvent, h]
  | cons qe rest ih =>
    obtain ⟨k, v⟩ := qe
    simp only [List.map_cons]
    by_cases hkp : k = p
    · rw [if_pos (show (k, v).1 = p from hkp)]
      by_cases hkq : k = q
      · have hpq : p = q := hkp ▸ hkq
        simp [lookupEvent, hkq, hkp, hpq]
      · have hpq : ¬ p = q := fun h => hkq (hkp.trans h)
        simp [lookupEvent, hkq, hpq, ih]
    · rw [if_neg (show ¬ (k, v).1 = p from hkp)]
      by_cases hkq : k = q
      · have hpq : ¬ p = q := fun h => hkp (hkq.trans h.symm)
        simp [lookupEvent, hkq, hkp, hpq]
      · simp [lookupEvent, hkq, hkp, ih]

theorem lookup_append {β : Type _} (l1 l2 : List (String × β)) (q : String) :
    lookupEvent (l1 ++ l2) q =
      match lookupEvent l1 q with
      | some v => some v
      | none => lookupEvent l2 q := by
  induction l1 with
  | nil => simp [lookupEvent]
  | cons qe rest ih =>
    obtain ⟨k, v⟩ := qe
    by_cases hk : k = q <;> simp [lookupEvent, hk, ih]

theorem lookup_updateEvent_self {β : Type _} (events : List (String × β)) (p : String)
    (dflt : β) (f : β → β) :
    lookupEvent (updateEvent events p dflt f) p =
      some (f ((lookupEvent events p).getD dflt)) := by
  rw [updateEvent]
  by_cases hs : (lookupEvent events p).isSome
  · obtain ⟨v, hv⟩ := Option.isSome_iff_exists.mp hs
    rw [if_pos hs, lookup_map_update, if_pos rfl, hv]
    rfl
  · have hnone : lookupEvent events p = none := Option.not_isSome_iff_eq_none.mp hs
    rw [if_neg hs, lookup_append, hnone]
    simp [lookupEvent]

theorem lookup_updateEvent_other {β : Type _} (events : List (String × β)) (p q : String)
    (dflt : β) (f : β → β) (hpq : p ≠ q) :
    lookupEvent (updateEvent events p dflt f) q = lookupEvent events q := by
  rw [updateEvent]
  by_cases hs : (lookupEvent events p).isSome
  · rw [if_pos hs, lookup_map_update, if_neg hpq]
  · rw [if_neg hs, lookup_append]
    cases hq : lookupEvent events q with
    | some v => rfl
    | none => simp [lookupEvent, hpq]

theorem lookup_logStep (events : List (String × EventEntry)) (l : LogLine) (p : String) :
    lookupEvent (logStep events l) p = stepEntry l p (lookupEvent events p) := by
  rw [logStep, stepEntry, totalWrite, opWrite]
  by_cases hh : l.header_ok
  · simp only [hh, if_true, not_true, if_neg, ite_false]
    cases hcm : completeMatch l with
    | some qe =>
      obtain ⟨q, e⟩ := qe
      by_cases hq : q = p
      · subst hq
        simp [lookup_updateEvent_self]
      · rw [lookup_updateEvent_other events q p ⟨none, none⟩ _ hq]
        simp [hq]
    | none =>
      by_cases hf : l.func_name = "transcribe_audio"
      · simp only [hf, if_true]
        cases hom : operationMatch l with
        | some qe =>
          obtain ⟨q, e⟩ := qe
          by_cases hq : q = p
          · subst hq
            simp [lookup_updateEvent_self]
          · rw [lookup_updateEvent_other events q p ⟨none, none⟩ _ hq]
            simp [hq]
        | none => simp
      · simp [hf]
  · simp [hh]

/-- Total-time slot of an optional dict entry. -/
def totalOf (e? : Option EventEntry) : Option ℚ :=
  e?.bind (fun en => en.total_elapsed_time)

/-- Operation-time slot of an optional dict entry. -/
def opOf (e? : Option EventEntry) : Option ℚ :=
  e?.bind (fun en => en.operation_elapsed_time)

theorem totalWrite_opWrite_exclusive (l : LogLine) (p : String) (e : ℚ)
    (h : totalWrite l p = some e) : opWrite l p = none := by
  rw [totalWrite] at h
  rw [opWrite]
  by_cases hh : l.header_ok
  · rw [if_pos hh] at h
    rw [if_pos hh]
    cases hcm : completeMatch l with
    | some qe => rfl
    | none => rw [hcm] at h; exact absurd h (by simp)
  · rw [if_neg hh] at h
    exact absurd h (by simp)

theorem totalOf_stepEntry (l : LogLine) (p : String) (e? : Option EventEntry) :
    totalOf (stepEntry l p e?) =
      match totalWrite l p with
      | some e => some e
      | none => totalOf e? := by
  rw [stepEntry]
  cases totalWrite l p with
  | some e => cases e? <;> rfl
  | none => cases opWrite l p <;> cases e? <;> rfl

theorem opOf_stepEntry (l : LogLine) (p : String) (e? : Option EventEntry) :
    opOf (stepEntry l p e?) =
      match opWrite l p with
      | some e => some e
      | none => opOf e? := by
  rw [stepEntry]
  cases htw : totalWrite l p with
  | some e =>
    rw [totalWrite_opWrite_exclusive l p e htw]
    cases e? <;> rfl
  | none => cases how : opWrite l p <;> cases e? <;> rfl

theorem totalOf_foldl_stepEntry (lines : List LogLine) (p : String)
    (e? : Option EventEntry) :
    totalOf (lines.foldl (fun a l => stepEntry l p a) e?) =
      lines.foldl (fun acc l =>
        match totalWrite l p with
        | some e => some e
        | none => acc) (totalOf e?) := by
  induction lines generalizing e? with
  | nil => rfl
  | cons l ls ih =>
    simp only [List.foldl_cons]
    rw [ih, totalOf_stepEntry]

theorem opOf_foldl_stepEntry (lines : List LogLine) (p : String)
    (e? : Option EventEntry) :
    opOf (lines.foldl (fun a l => stepEntry l p a) e?) =
      lines.foldl (fun acc l =>
        match opWrite l p with
        | some e => some e
        | none => acc) (opOf e?) := by
  induction lines generalizing e? with
  | nil => rfl
  | cons l ls ih =>
    simp only [List.foldl_cons]
    rw [ih, opOf_stepEntry]

theorem lookup_foldl_logStep (lines : List LogLine)
    (events : List (String × EventEntry)) (p : String) :
    lookupEvent (lines.foldl logStep events) p =
      lines.foldl (fun a l => stepEntry l p a) (lookupEvent events p) := by
  induction lines generalizing events with
  | nil => rfl
  | cons l ls ih =>
    simp only [List.foldl_cons]
    rw [ih, lookup_logStep]

theorem totalOf_final (lines : List LogLine) (p : String) :
    totalOf (lookupEvent (lines.foldl logStep []) p) = lastTotal lines p := by
  rw [lookup_foldl_logStep]
  exact totalOf_foldl_stepEntry lines p none

theorem opOf_final (lines : List LogLine) (p : String) :
    opOf (lookupEvent (lines.foldl logStep []) p) = lastOp lines p := by
  rw [lookup_foldl_logStep]
  exact opOf_foldl_stepEntry lines p none

theorem lookup_none_iff_not_mem_keys {β : Type _} (events : List (String × β)) (p : String) :
    lookupEvent events p = none ↔ p ∉ events.map Prod.fst := by
  induction events with
  | nil => simp [lookupEvent]
  | cons qe rest ih =>
    obtain ⟨k, v⟩ := qe
    by_cases hk : k = p
    · subst hk
      simp [lookupEvent]
    · rw [lookupEvent, if_neg hk, ih]
      simp only [List.map_cons, List.mem_cons]
      constructor
      · intro h hor
        rcases hor with h1 | h2
        · exact hk h1.symm
        · exact h h2
      · intro h hmem
        exact h (Or.inr hmem)

theorem keys_updateEvent {β : Type _} (events : List (String × β)) (p : String)
    (dflt : β) (f : β → β) :
    ((updateEvent events p dflt f).map Prod.fst).Nodup ↔ (events.map Prod.fst).Nodup := by
  rw [updateEvent]
  by_cases hs : (lookupEvent events p).isSome
  · rw [if_pos hs, List.map_map]
    have : (Prod.fst ∘ fun qe : String × β =>
        if qe.1 = p then (qe.1, f qe.2) else qe) = Prod.fst := by
      funext qe
      by_cases h : qe.1 = p <;> simp [h]
    rw [this]
  · rw [if_neg hs, List.map_append]
    have hp : p ∉ events.map Prod.fst :=
      (lookup_none_iff_not_mem_keys events p).mp (Option.not_isSome_iff_eq_none.mp hs)
    constructor
    · intro h
      exact (List.nodup_append.mp h).1
    · intro h
      exact List.nodup_append.mpr ⟨h, List.nodup_singleton p, by simpa using hp⟩

theorem nodup_keys_logStep (events : List (String × EventEntry)) (l : LogLine)
    (h : (events.map Prod.fst).Nodup) : ((logStep events l).map Prod.fst).Nodup := by
  rw [logStep]
  by_cases hh : l.header_ok
  · simp only [hh, not_true, if_neg, ite_false]
    cases completeMatch l with
    | some qe => exact (keys_updateEvent events qe.1 _ _).mpr h
    | none =>
      by_cases hf : l.func_name = "transcribe_audio"
      · simp only [hf, if_true]
        cases operationMatch l with
        | some qe => exact (keys_updateEvent events qe.1 _ _).mpr h
        | none => exact h
      · simpa [hf] using h
  · simpa [hh] using h

theorem nodup_keys_foldl (lines : List LogLine) (events : List (String × EventEntry))
    (h : (events.map Prod.fst).Nodup) :
    ((lines.foldl logStep events).map Prod.fst).Nodup := by
  induction lines generalizing events with
  | nil => exact h
  | cons l ls ih =>
    simp only [List.foldl_cons]
    exact ih (logStep events l) (nodup_keys_logStep events l h)

theorem lookup_of_mem {β : Type _} (events : List (String × β)) (p : String) (en : β)
    (hmem : (p, en) ∈ events) (hnd : (events.map Prod.fst).Nodup) :
    lookupEvent events p = some en := by
  induction events with
  | nil => exact absurd hmem (List.not_mem_nil _)
  | cons qe rest ih =>
    obtain ⟨k, v⟩ := qe
    rcases List.mem_cons.mp hmem with heq | hrest
    · injection heq with h1 h2
      subst h1
      subst h2
      rw [lookupEvent, if_pos rfl]
    · have hk : k ≠ p := by
        intro hkp
        subst hkp
        have : k ∈ rest.map Prod.fst := List.mem_map.mpr ⟨(k, en), hrest, rfl⟩
        exact (List.nodup_cons.mp (by simpa using hnd)).1 this
      simp only [lookupEvent, hk, if_false, ite_false]
      exact ih hrest (List.nodup_cons.mp (by simpa using hnd)).2

theorem mem_of_lookup {β : Type _} (events : List (String × β)) (p : String) (en : β)
    (h : lookupEvent events p = some en) : (p, en) ∈ events := by
  induction events with
  | nil => exact absurd h (by simp [lookupEvent])
  | cons qe rest ih =>
    obtain ⟨k, v⟩ := qe
    by_cases hk : k = p
    · subst hk
      rw [lookupEvent, if_pos rfl] at h
      injection h with h'
      exact List.mem_cons.mpr (Or.inl (by rw [h']))
    · rw [lookupEvent, if_neg hk] at h
      exact List.mem_cons.mpr (Or.inr (ih h))

/-- The rational `12.5` (= 25/2) as an explicit `Rat` structure literal, so
that concrete runs evaluate inside `decide`. -/
def q12p5 : ℚ := ⟨25, 2, by decide, by decide⟩

/-- The rational `3.0` as an explicit `Rat` structure literal. -/
def q3 : ℚ := ⟨3, 1, by decide, by decide⟩

theorem q12p5_eq : q12p5 = 12.5 := by
  rw [q12p5, Rat.mk'_eq_divInt, Rat.divInt_eq_div]
  norm_num

theorem q3_eq : q3 = 3 := by
  rw [q3, Rat.mk'_eq_divInt, Rat.divInt_eq_div]
  norm_num

/-- Claim C2: in `_parse_log_file`, a header-matching line carrying the
"completed, output saved to" phrase with `current_file` P and
`elapsed_time_sec` E sets the total elapsed time of P to E (the last such
line wins, regardless of function name — `lastTotal` does not consult
`func_name`); a header-matching line whose `func_name` is
`transcribe_audio` carrying the extras without the completed phrase sets
the operation elapsed time of P (`lastOp`); the extractor emits a
`LogData` exactly for the paths that acquired a total-time entry, and a
record lacking an operation time has `operation_elapsed_time_sec` equal to
`total_elapsed_time_sec` (the `getD` default).  In particular, a completed
line with 12.5 and no operation line yields total = 12.5 and
operation = 12.5, and an operation line with 3.0 plus a completed line
with 12.5 for the same file yields total = 12.5 and operation = 3.0. -/
theorem parse_log_file_spec (lines : List LogLine) :
    (∀ r ∈ _parse_log_file lines, ∃ p,
      r.file_name = path_stem p ∧
      lastTotal lines p = some r.total_elapsed_time_sec ∧
      r.operation_elapsed_time_sec = (lastOp lines p).getD r.total_elapsed_time_sec) ∧
    (∀ p t, lastTotal lines p = some t →
      ∃ r ∈ _parse_log_file lines,
        r.file_name = path_stem p ∧ r.total_elapsed_time_sec = t ∧
        r.operation_elapsed_time_sec = (lastOp lines p).getD t) ∧
    _parse_log_file [⟨true, "transcriber_wrapper", true, some ("data/a.mp3", 12.5)⟩] =
      [⟨"a", 12.5, 12.5⟩] ∧
    _parse_log_file
        [⟨true, "transcribe_audio", false, some ("data/a.mp3", 3)⟩,
         ⟨true, "transcriber_wrapper", true, some ("data/a.mp3", 12.5)⟩] =
      [⟨"a", 12.5, 3⟩] := by
  refine ⟨?_, ?_, ?_, ?_⟩
  · intro r hr
    obtain ⟨pe, hpe, hf⟩ := List.mem_filterMap.mp hr
    obtain ⟨p, en⟩ := pe
    cases ht : en.total_elapsed_time with
    | none =>
      rw [ht] at hf
      exact absurd hf (by simp)
    | some t =>
      rw [ht] at hf
      injection hf with hf'
      subst hf'
      have hlookup := lookup_of_mem _ p en hpe (nodup_keys_foldl lines [] (by simp))
      refine ⟨p, rfl, ?_, ?_⟩
      · rw [← totalOf_final, hlookup]
        simpa [totalOf] using ht
      · have hop : lastOp lines p = en.operation_elapsed_time := by
          rw [← opOf_final, hlookup]
          rfl
        rw [hop]
  · intro p t hlt
    have h1 : totalOf (lookupEvent (lines.foldl logStep []) p) = some t := by
      rw [totalOf_final]
      exact hlt
    cases hlk : lookupEvent (lines.foldl logStep []) p with
    | none =>
      rw [hlk] at h1
      exact absurd h1 (by simp [totalOf])
    | some en =>
      rw [hlk] at h1
      have ht : en.total_elapsed_time = some t := by simpa [totalOf] using h1
      have hmem := mem_of_lookup _ p en hlk
      refine ⟨⟨path_stem p, t, en.operation_elapsed_time.getD t⟩, ?_, rfl, rfl, ?_⟩
      · exact List.mem_filterMap.mpr ⟨(p, en), hmem, by simp [ht]⟩
      · have hop : lastOp lines p = en.operation_elapsed_time := by
          rw [← opOf_final, hlk]
          rfl
        rw [hop]
  · rw [show (12.5 : ℚ) = q12p5 from q12p5_eq.symm]
    decide
  · rw [show (12.5 : ℚ) = q12p5 from q12p5_eq.symm, show (3 : ℚ) = q3 from q3_eq.symm]
    decide

/-- Witness for `parse_log_file_spec`: the completeness direction applied
to a concrete one-line log. -/
theorem parse_log_file_spec_witness :
    ∃ r ∈ _parse_log_file
        [⟨true, "transcriber_wrapper", true, some ("data/a.mp3", q12p5)⟩],
      r.file_name = path_stem "data/a.mp3" ∧ r.total_elapsed_time_sec = q12p5 ∧
      r.operation_elapsed_time_sec =
        (lastOp [⟨true, "transcriber_wrapper", true, some ("data/a.mp3", q12p5)⟩]
          "data/a.mp3").getD q12p5 :=
  (parse_log_file_spec
    [⟨true, "transcriber_wrapper", true, some ("data/a.mp3", q12p5)⟩]).2.1
    "data/a.mp3" q12p5 (by decide)

/-! ### LLM summary extraction (`_extract_text_from_summary_file`,
src/test/llm/processor.py, lines 210-216) -/

/-- A decoded JSON value (the result of a successful `json.loads`). -/
inductive JVal
  | str (s : String)
  | num (q : ℚ)
  | jbool (b : Bool)
  | null
  | arr (xs : List JVal)
  | obj (fields : List (String × JVal))

/-- Python `d[key]` on a decoded JSON value: `KeyError` when the key is
missing from an object, `TypeError` when the value is not an object. -/
def jGetItem (v : JVal) (key : String) : Except String JVal :=
  match v with
  | JVal.obj fields =>
    match fields.lookup key with
    | some x => Except.ok x
    | none => Except.error ("KeyError: " ++ key)
  | _ => Except.error "TypeError: value is not subscriptable by str"

/-- Python iteration for the `*resume` unpacking: a list yields its
elements, a string yields its characters as one-character strings, a dict
yields its keys; numbers, booleans and null raise `TypeError`. -/
def jIter (v : JVal) : Except String (List JVal) :=
  match v with
  | JVal.arr xs => Except.ok xs
  | JVal.str s => Except.ok (s.toList.map (fun c => JVal.str (String.mk [c])))
  | JVal.obj fields => Except.ok (fields.map (fun kv => JVal.str kv.1))
  | _ => Except.error "TypeError: value is not iterable"

/-- The element check of Python `" ".join(xs)`: every element must be a
`str`, else `TypeError`. -/
def jJoinStr : List JVal → Except String (List String)
  | [] => Except.ok []
  | JVal.str s :: rest => (jJoinStr rest).map (fun l => s :: l)
  | _ :: _ => Except.error "TypeError: sequence item is not str"

/-- Python `" ".join` on the checked string list. -/
def joinSpace : List String → String
  | [] => ""
  | [x] => x
  | x :: rest => x ++ " " ++ joinSpace rest

/-- Embedding of `_extract_text_from_summary_file`: the file content is
presented as `none` when `json.loads` raises `JSONDecodeError` (which the
source catches, returning `""`) and `some v` for a decoded value `v`; any
other exception — missing key, non-object value, non-iterable `resume`,
non-string element — is not caught and propagates. -/
def _extract_text_from_summary_file (content : Option JVal) : Except String String :=
  match content with
  | none => Except.ok ""
  | some v => do
    let title ← jGetItem v "title"
    let tldr ← jGetItem v "tldr"
    let resume ← jGetItem v "resume"
    let resumeItems ← jIter resume
    let conclusion ← jGetItem v "conclusion"
    let parts ← jJoinStr ([title, tldr] ++ resumeItems ++ [conclusion])
    Except.ok (joinSpace parts)

/-- Embedding of `_parse_file_path` (src/test/llm/processor.py, lines
291-296): split the stem on dots and take segments 3 and 4 (then the part
of each before the first underscore) — `IndexError` when the stem has
fewer than five dot-separated segments. -/
def _parse_file_path (file_path : String) : Except String (String × String × String) :=
  let file_name := path_stem file_path
  let parts := (splitOnChar '.' file_name.toList).map String.mk
  match parts.get? 3, parts.get? 4 with
  | some p3, some p4 =>
    Except.ok (file_name, String.mk ((splitOnChar '_' p3.toList).headD []),
      String.mk ((splitOnChar '_' p4.toList).headD []))
  | _, _ => Except.error "IndexError: list index out of range"

/-! ### `LLMProcessor.metrics` (src/test/llm/processor.py, lines 86-174)

The scoring block (ROUGE / BERTScore / BLEU / METEOR) is an opaque
parameter `scores`, and the elapsed-time dict built by the LLM
`_parse_log_file` is an opaque total lookup `log_get` (the source's
`log_data.get(stem, 0)`). -/

/-- One output row of `llm metrics` (identity fields, the opaque score
block and the elapsed time). -/
structure LLMRow where
  file_name : String
  person_count : String
  time_in_minute : String
  scores : List ℚ
  elapsed_time_sec : ℚ
deriving DecidableEq

/-- `references_paths_by_filename`: group the reference paths by stem via
`setdefault(stem, []).append(path)`. -/
def buildRefIndex (references_paths : List String) : List (String × List String) :=
  references_paths.foldl
    (fun idx r => updateEvent idx (path_stem r) [] (fun l => l ++ [r])) []

/-- The body of one iteration of the hypothesis loop of
`LLMProcessor.metrics` once the stem-membership check has passed: extract
every grouped reference, keep the non-empty ones, extract the hypothesis,
skip when either side is empty, else parse the filename identity and build
the row.  Any uncaught exception propagates. -/
def llm_row_core (contentJ : String → Option JVal)
    (scores : List String → String → List ℚ) (log_get : String → ℚ)
    (hypotheses_path : String) (ref_paths : List String) :
    Except String (Option LLMRow) := do
  let refTexts ← ref_paths.mapM (fun rp => _extract_text_from_summary_file (contentJ rp))
  let refs := refTexts.filter (fun x => 0 < x.length)
  let hyp ← _extract_text_from_summary_file (contentJ hypotheses_path)
  if hyp.length = 0 ∨ refs.length = 0 then
    Except.ok none
  else do
    let idp ← _parse_file_path hypotheses_path
    Except.ok (some ⟨idp.1, idp.2.1, idp.2.2, scores refs hyp,
      log_get (path_stem hypotheses_path)⟩)

/-- The work one iteration of the hypothesis loop of `LLMProcessor.metrics`
performs for one hypothesis: `none` when the iteration contributes no row
(a `continue`), `some row` when it appends a row, an error when an uncaught
exception propagates. -/
def llm_row_of (contentJ : String → Option JVal) (scores : List String → String → List ℚ)
    (log_get : String → ℚ) (refIndex : List (String × List String))
    (hypotheses_path : String) : Except String (Option LLMRow) :=
  match lookupEvent refIndex (path_stem hypotheses_path) with
  | none => Except.ok none
  | some ref_paths =>
    llm_row_core contentJ scores log_get hypotheses_path ref_paths

/-- The hypothesis loop of `LLMProcessor.metrics`, accumulating `result`. -/
def LLMProcessor_metrics_rows (contentJ : String → Option JVal)
    (scores : List String → String → List ℚ) (log_get : String → ℚ)
    (references_paths hypotheses_paths : List String) : Except String (List LLMRow) :=
  hypotheses_paths.foldlM
    (fun acc h =>
      (llm_row_of contentJ scores log_get (buildRefIndex references_paths) h).map
        (fun row? =>
          match row? with
          | none => acc
          | some row => acc ++ [row]))
    []

/-- The sort key comparison of `result.sort(key=lambda x: (x[2], x[1]))`:
Python tuple comparison over the two strings, i.e. lexicographic on
`(time_in_minute, person_count)` with code-point string comparison. -/
def rowKeyLE (x y : LLMRow) : Bool :=
  x.time_in_minute < y.time_in_minute ∨
    (x.time_in_minute = y.time_in_minute ∧
      (x.person_count < y.person_count ∨ x.person_count = y.person_count))

/-- The content of `metrics.csv` as written by `llm metrics` (the row list
below the fixed header): `none` when an uncaught exception aborts the run
before the write. -/
def LLMProcessor_metrics_csv (contentJ : String → Option JVal)
    (scores : List String → String → List ℚ) (log_get : String → ℚ)
    (references_paths hypotheses_paths : List String) : Option (List LLMRow) :=
  match LLMProcessor_metrics_rows contentJ scores log_get references_paths hypotheses_paths with
  | Except.error _ => none
  | Except.ok rows => some (rows.mergeSort rowKeyLE)

/-! ### `ASRProcessor.metrics` (src/test/asr/processor.py, lines 113-174)

The `jiwer` score block is an opaque parameter `scores`; file reads are a
total `content` lookup. -/

/-- One output row of `asr metrics` (the five jiwer scores are the opaque
block). -/
structure ASRRow where
  file_name : String
  scores : List ℚ
  total_sec : ℚ
  operation_sec : ℚ
deriving DecidableEq

/-- `name_to_reference_file`: a dict comprehension keyed by `Path.name` —
the last reference file with a given name wins. -/
def name_to_reference_file (reference_files : List String) : List (String × String) :=
  reference_files.foldl (fun m rf => updateEvent m (path_name rf) rf (fun _ => rf)) []

/-- `file_name_to_log_data`: a dict comprehension keyed by
`log_data.file_name`. -/
def file_name_to_log_data (logs_data : List LogData) : List (String × LogData) :=
  logs_data.foldl (fun m ld => updateEvent m ld.file_name ld (fun _ => ld)) []

/-- The row one iteration of the hypothesis loop of `ASRProcessor.metrics`
appends, if any: `none` when no reference file shares the hypothesis's
filename (a warning is logged and the iteration skipped). -/
def asr_metrics_row (scores : String → String → List ℚ) (content : String → String)
    (refmap : List (String × String)) (logmap : List (String × LogData))
    (hypotheses_file : String) : Option ASRRow :=
  match lookupEvent refmap (path_name hypotheses_file) with
  | none => none
  | some reference_file =>
    let log_data := lookupEvent logmap (path_stem hypotheses_file)
    some ⟨path_name hypotheses_file,
      scores (content reference_file) (content hypotheses_file),
      (log_data.map (fun ld => ld.total_elapsed_time_sec)).getD 0,
      (log_data.map (fun ld => ld.operation_elapsed_time_sec)).getD 0⟩

/-- The hypothesis loop of `ASRProcessor.metrics` with its in-loop CSV
rewriting: the fold carries `(result, file state)`; every matched
hypothesis appends its row and rewrites `metrics.csv` with all rows so
far; an unmatched hypothesis leaves both unchanged.  `init` is the file
state before the run (`none`: no `metrics.csv` present). -/
def ASRProcessor_metrics_loop (scores : String → String → List ℚ)
    (content : String → String) (refmap : List (String × String))
    (logmap : List (String × LogData)) (init : Option (List ASRRow))
    (hypotheses_files : List String) : List ASRRow × Option (List ASRRow) :=
  hypotheses_files.foldl
    (fun st h =>
      match asr_metrics_row scores content refmap logmap h with
      | none => st
      | some row => (st.1 ++ [row], some (st.1 ++ [row])))
    ([], init)

/-- The write-once-after-the-loop variant the specification allows: the
final file always holds the header plus all emitted rows. -/
def ASRProcessor_metrics_write_once (scores : String → String → List ℚ)
    (content : String → String) (refmap : List (String × String))
    (logmap : List (String × LogData)) (hypotheses_files : List String) :
    Option (List ASRRow) :=
  some (ASRProcessor_metrics_loop scores content refmap logmap none hypotheses_files).1

theorem asr_metrics_loop_invariant (scores : String → String → List ℚ)
    (content : String → String) (refmap : List (String × String))
    (logmap : List (String × LogData)) (hyps : List String)
    (rows0 : List ASRRow) (st0 : Option (List ASRRow)) :
    hyps.foldl
      (fun st h =>
        match asr_metrics_row scores content refmap logmap h with
        | none => st
        | some row => (st.1 ++ [row], some (st.1 ++ [row])))
      (rows0, st0) =
    (rows0 ++ hyps.filterMap (asr_metrics_row scores content refmap logmap),
      if ∀ h ∈ hyps, asr_metrics_row scores content refmap logmap h = none then st0
      else some (rows0 ++ hyps.filterMap (asr_metrics_row scores content refmap logmap))) := by
  induction hyps generalizing rows0 st0 with
  | nil => simp
  | cons h t ih =>
    simp only [List.foldl_cons]
    cases hr : asr_metrics_row scores content refmap logmap h with
    | none =>
      rw [ih]
      simp [List.filterMap_cons, hr]
    | some row =>
      rw [ih]
      simp only [List.filterMap_cons, hr, List.forall_mem_cons, false_and, if_false,
        reduceCtorEq, ite_false]
      rw [Prod.mk.injEq]
      refine ⟨by simp, ?_⟩
      by_cases ht : ∀ x ∈ t, asr_metrics_row scores content refmap logmap x = none
      · rw [if_pos ht, List.filterMap_eq_nil_iff.mpr ht]
      · rw [if_neg ht]
        simp

/-- Claim C6 counterexample: with no reference files and a single unmatched
hypothesis (so the set of emitted rows is empty), the in-loop variant never
executes the CSV write — the file state stays `none` (no `metrics.csv`) —
while the write-once variant writes a header-only CSV (`some []`).  This
refutes the claimed equivalence "including the case where the set of
emitted rows is empty". -/
theorem asr_metrics_write_counterexample :
    (ASRProcessor_metrics_loop (fun _ _ => []) (fun _ => "") [] [] none ["h/x.txt"]).2 =
      none ∧
    ASRProcessor_metrics_write_once (fun _ _ => []) (fun _ => "") [] [] ["h/x.txt"] =
      some [] ∧
    (none : Option (List ASRRow)) ≠ some [] := by decide

/-- Claim C6 (amended): the in-loop CSV rewriting of `ASRProcessor.metrics`
produces the same final observable file state as the write-once-after-the-
loop variant whenever at least one row is emitted (both end at the header
plus all emitted rows, in discovery order); when the set of emitted rows is
empty the two differ — the in-loop variant performs no write at all,
leaving the previous file state, while the write-once variant writes a
header-only CSV. -/
theorem asr_metrics_write_equiv (scores : String → String → List ℚ)
    (content : String → String) (refmap : List (String × String))
    (logmap : List (String × LogData)) (init : Option (List ASRRow))
    (hyps : List String) :
    (ASRProcessor_metrics_loop scores content refmap logmap init hyps).1 =
      hyps.filterMap (asr_metrics_row scores content refmap logmap) ∧
    ((∃ h ∈ hyps, (asr_metrics_row scores content refmap logmap h).isSome) →
      (ASRProcessor_metrics_loop scores content refmap logmap init hyps).2 =
        ASRProcessor_metrics_write_once scores content refmap logmap hyps) ∧
    ((∀ h ∈ hyps, asr_metrics_row scores content refmap logmap h = none) →
      (ASRProcessor_metrics_loop scores content refmap logmap init hyps).2 = init ∧
      ASRProcessor_metrics_write_once scores content refmap logmap hyps = some []) := by
  have hloop := asr_metrics_loop_invariant scores content refmap logmap hyps [] init
  have honce := asr_metrics_loop_invariant scores content refmap logmap hyps [] none
  have hfst : (ASRProcessor_metrics_loop scores content refmap logmap init hyps).1 =
      hyps.filterMap (asr_metrics_row scores content refmap logmap) := by
    rw [ASRProcessor_metrics_loop, hloop]
    simp
  have hsnd : (ASRProcessor_metrics_loop scores content refmap logmap init hyps).2 =
      (if ∀ h ∈ hyps, asr_metrics_row scores content refmap logmap h = none then init
        else some ([] ++ hyps.filterMap (asr_metrics_row scores content refmap logmap))) := by
    rw [ASRProcessor_metrics_loop, hloop]
  have honce2 : ASRProcessor_metrics_write_once scores content refmap logmap hyps =
      some (hyps.filterMap (asr_metrics_row scores content refmap logmap)) := by
    rw [ASRProcessor_metrics_write_once, ASRProcessor_metrics_loop, honce]
    simp
  refine ⟨hfst, ?_, ?_⟩
  · intro hex
    have hnall : ¬ ∀ h ∈ hyps, asr_metrics_row scores content refmap logmap h = none := by
      intro hall
      obtain ⟨h, hh, hs⟩ := hex
      rw [hall h hh] at hs
      exact absurd hs (by simp)
    rw [hsnd, if_neg hnall, honce2]
    simp
  · intro hall
    have hnil := List.filterMap_eq_nil_iff.mpr hall
    exact ⟨by rw [hsnd, if_pos hall], by rw [honce2, hnil]⟩

/-- Witness for `asr_metrics_write_equiv`: one matched hypothesis, so a row
is emitted and both variants end in the same one-row file. -/
theorem asr_metrics_write_equiv_witness :
    (ASRProcessor_metrics_loop (fun _ _ => []) (fun _ => "w") [("x.txt", "r/x.txt")] []
        none ["h/x.txt"]).2 =
      ASRProcessor_metrics_write_once (fun _ _ => []) (fun _ => "w") [("x.txt", "r/x.txt")]
        [] ["h/x.txt"] :=
  (asr_metrics_write_equiv (fun _ _ => []) (fun _ => "w") [("x.txt", "r/x.txt")] []
    none ["h/x.txt"]).2.1 (by decide)

/-- `ASRProcessor.metrics` assembled from its dictionaries: the row list
and final file state, starting from no pre-existing `metrics.csv`. -/
def ASRProcessor_metrics (scores : String → String → List ℚ)
    (content : String → String) (reference_files hypotheses_files : List String)
    (logs_data : List LogData) : List ASRRow × Option (List ASRRow) :=
  ASRProcessor_metrics_loop scores content (name_to_reference_file reference_files)
    (file_name_to_log_data logs_data) none hypotheses_files

theorem parse_file_path_fst (fp : String) (idp : String × String × String)
    (h : _parse_file_path fp = Except.ok idp) : idp.1 = path_stem fp := by
  rw [_parse_file_path] at h
  cases h3 : (((splitOnChar '.' (path_stem fp).toList).map String.mk)).get? 3 with
  | none => rw [h3] at h; exact absurd h (by simp)
  | some p3 =>
    cases h4 : (((splitOnChar '.' (path_stem fp).toList).map String.mk)).get? 4 with
    | none => rw [h3, h4] at h; exact absurd h (by simp)
    | some p4 =>
      rw [h3, h4] at h
      injection h with h'
      rw [← h']

theorem foldl_lastMatch_none {α : Type _} (p : α → Bool) (l : List α) (a : Option α) :
    l.foldl (fun acc x => if p x then some x else acc) a = none ↔
      a = none ∧ ∀ x ∈ l, ¬ p x := by
  induction l generalizing a with
  | nil => simp
  | cons y t ih =>
    simp only [List.foldl_cons]
    by_cases hy : p y
    · rw [if_pos hy, ih]
      simp [hy]
    · rw [if_neg hy, ih]
      simp [hy]

theorem foldl_lastMatch_some {α : Type _} (p : α → Bool) (l : List α) (a : Option α)
    (r : α) (h : l.foldl (fun acc x => if p x then some x else acc) a = some r) :
    a = some r ∨ (r ∈ l ∧ p r) := by
  induction l generalizing a with
  | nil => exact Or.inl h
  | cons y t ih =>
    simp only [List.foldl_cons] at h
    by_cases hy : p y
    · rw [if_pos hy] at h
      rcases ih _ h with h1 | h2
      · injection h1 with h1'
        exact Or.inr ⟨by rw [← h1']; exact List.mem_cons_self y t, by rw [← h1']; exact hy⟩
      · exact Or.inr ⟨List.mem_cons_of_mem y h2.1, h2.2⟩
    · rw [if_neg hy] at h
      rcases ih _ h with h1 | h2
      · exact Or.inl h1
      · exact Or.inr ⟨List.mem_cons_of_mem y h2.1, h2.2⟩

theorem lookup_name_map_fold (refs : List String) (m : List (String × String)) (n : String) :
    lookupEvent (refs.foldl (fun m rf => updateEvent m (path_name rf) rf (fun _ => rf)) m) n =
      refs.foldl (fun acc rf => if path_name rf = n then some rf else acc)
        (lookupEvent m n) := by
  induction refs generalizing m with
  | nil => rfl
  | cons r t ih =>
    simp only [List.foldl_cons]
    rw [ih]
    by_cases hr : path_name r = n
    · rw [if_pos hr, ← hr, lookup_updateEvent_self]
    · rw [if_neg hr, lookup_updateEvent_other _ _ _ _ _ hr]

theorem lookup_name_map_none_iff (refs : List String) (n : String) :
    lookupEvent (name_to_reference_file refs) n = none ↔
      ∀ r ∈ refs, path_name r ≠ n := by
  rw [name_to_reference_file, lookup_name_map_fold]
  rw [show (lookupEvent ([] : List (String × String)) n) = none from rfl]
  constructor
  · intro h r hr
    have := ((foldl_lastMatch_none (fun rf => path_name rf = n) refs none).mp (by
      simpa using h)).2 r hr
    simpa using this
  · intro h
    have := (foldl_lastMatch_none (fun rf => path_name rf = n) refs none).mpr
      ⟨rfl, fun x hx => by simpa using h x hx⟩
    simpa using this

theorem lookup_name_map_some_mem (refs : List String) (n : String) (r : String)
    (h : lookupEvent (name_to_reference_file refs) n = some r) :
    r ∈ refs ∧ path_name r = n := by
  rw [name_to_reference_file, lookup_name_map_fold] at h
  have h' : refs.foldl (fun acc rf => if path_name rf = n then some rf else acc)
      none = some r := by simpa using h
  rcases foldl_lastMatch_some (fun rf => path_name rf = n) refs none r (by
    simpa using h') with h1 | h2
  · exact absurd h1 (by simp)
  · exact ⟨h2.1, by simpa using h2.2⟩

theorem foldl_groupAppend_none {α : Type _} (p : α → Bool) (l : List α)
    (a : Option (List α)) :
    l.foldl (fun acc x => if p x then some (acc.getD [] ++ [x]) else acc) a = none ↔
      a = none ∧ ∀ x ∈ l, ¬ p x := by
  induction l generalizing a with
  | nil => simp
  | cons y t ih =>
    simp only [List.foldl_cons]
    by_cases hy : p y
    · rw [if_pos hy, ih]
      simp [hy]
    · rw [if_neg hy, ih]
      simp [hy]

theorem foldl_groupAppend_some_mem {α : Type _} (p : α → Bool) (l : List α)
    (a : Option (List α)) (out : List α)
    (h : l.foldl (fun acc x => if p x then some (acc.getD [] ++ [x]) else acc) a =
      some out) :
    ∀ y ∈ out, (∃ oa, a = some oa ∧ y ∈ oa) ∨ (y ∈ l ∧ p y) := by
  induction l generalizing a with
  | nil =>
    intro y hy
    exact Or.inl ⟨out, h, hy⟩
  | cons z t ih =>
    simp only [List.foldl_cons] at h
    intro y hy
    by_cases hz : p z
    · rw [if_pos hz] at h
      rcases ih _ h y hy with ⟨oa, hoa, hyo⟩ | h2
      · injection hoa with hoa'
        rw [← hoa'] at hyo
        rcases List.mem_append.mp hyo with hin | hin
        · rcases a with _ | av
          · exact absurd hin (by simp)
          · exact Or.inl ⟨av, rfl, by simpa using hin⟩
        · have hyz : y = z := by simpa using hin
          exact Or.inr ⟨by rw [hyz]; exact List.mem_cons_self z t, by rw [hyz]; exact hz⟩
      · exact Or.inr ⟨List.mem_cons_of_mem z h2.1, h2.2⟩
    · rw [if_neg hz] at h
      rcases ih _ h y hy with h1 | h2
      · exact Or.inl h1
      · exact Or.inr ⟨List.mem_cons_of_mem z h2.1, h2.2⟩

theorem lookup_buildRefIndex_fold (refs : List String)
    (idx : List (String × List String)) (s : String) :
    lookupEvent
        (refs.foldl (fun idx r => updateEvent idx (path_stem r) [] (fun l => l ++ [r])) idx)
        s =
      refs.foldl
        (fun acc r => if path_stem r = s then some (acc.getD [] ++ [r]) else acc)
        (lookupEvent idx s) := by
  induction refs generalizing idx with
  | nil => rfl
  | cons r t ih =>
    simp only [List.foldl_cons]
    rw [ih]
    by_cases hr : path_stem r = s
    · rw [if_pos hr, ← hr, lookup_updateEvent_self]
    · rw [if_neg hr, lookup_updateEvent_other _ _ _ _ _ hr]

theorem refIndex_lookup_none_iff (refs : List String) (s : String) :
    lookupEvent (buildRefIndex refs) s = none ↔ ∀ r ∈ refs, path_stem r ≠ s := by
  rw [buildRefIndex, lookup_buildRefIndex_fold]
  constructor
  · intro h r hr
    have := ((foldl_groupAppend_none (fun r => path_stem r = s) refs none).mp (by
      simpa using h)).2 r hr
    simpa using this
  · intro h
    have := (foldl_groupAppend_none (fun r => path_stem r = s) refs none).mpr
      ⟨rfl, fun x hx => by simpa using h x hx⟩
    simpa using this

theorem refIndex_lookup_some_mem (refs : List String) (s : String) (l : List String)
    (h : lookupEvent (buildRefIndex refs) s = some l) :
    ∀ r ∈ l, r ∈ refs ∧ path_stem r = s := by
  rw [buildRefIndex, lookup_buildRefIndex_fold] at h
  intro r hr
  rcases foldl_groupAppend_some_mem (fun r => path_stem r = s) refs none l (by
    simpa using h) r hr with ⟨oa, hoa, _⟩ | h2
  · exact absurd hoa (by simp)
  · exact ⟨h2.1, by simpa using h2.2⟩

theorem mapM_ok_mem {α β : Type _} (f : α → Except String β) (l : List α) (out : List β)
    (h : l.mapM f = Except.ok out) : ∀ y ∈ out, ∃ x ∈ l, f x = Except.ok y := by
  induction l generalizing out with
  | nil =>
    rw [List.mapM_nil] at h
    injection h with h'
    subst h'
    intro y hy
    exact absurd hy (List.not_mem_nil y)
  | cons x t ih =>
    rw [List.mapM_cons] at h
    cases hx : f x with
    | error e =>
      rw [hx] at h
      exact absurd h (by simp [Bind.bind, Except.bind])
    | ok y0 =>
      rw [hx] at h
      cases ht : t.mapM f with
      | error e =>
        rw [ht] at h
        exact absurd h (by simp [Bind.bind, Except.bind, Pure.pure, Except.pure])
      | ok outt =>
        rw [ht] at h
        have hout : out = y0 :: outt := by
          have := h
          simp only [Bind.bind, Except.bind, Pure.pure, Except.pure] at this
          injection this with this'
          exact this'.symm
        subst hout
        intro y hy
        rcases List.mem_cons.mp hy with hy0 | hyt
        · exact ⟨x, List.mem_cons_self x t, hy0 ▸ hx⟩
        · obtain ⟨x', hx', hfx'⟩ := ih outt ht y hyt
          exact ⟨x', List.mem_cons_of_mem x hx', hfx'⟩

theorem mapM_ok_of_all_ok {α β : Type _} (f : α → Except String β) (l : List α)
    (h : ∀ x ∈ l, ∃ y, f x = Except.ok y) : ∃ out, l.mapM f = Except.ok out := by
  induction l with
  | nil => exact ⟨[], by rw [List.mapM_nil]; rfl⟩
  | cons x t ih =>
    obtain ⟨y, hy⟩ := h x (List.mem_cons_self x t)
    obtain ⟨outt, houtt⟩ := ih (fun z hz => h z (List.mem_cons_of_mem x hz))
    refine ⟨y :: outt, ?_⟩
    rw [List.mapM_cons, hy, houtt]
    rfl

theorem llm_rows_sound (contentJ : String → Option JVal)
    (scores : List String → String → List ℚ) (log_get : String → ℚ)
    (refIndex : List (String × List String)) (hyps : List String)
    (acc out : List LLMRow)
    (h : hyps.foldlM
        (fun acc hp =>
          (llm_row_of contentJ scores log_get refIndex hp).map
            (fun row? =>
              match row? with
              | none => acc
              | some row => acc ++ [row])) acc = Except.ok out) :
    ∀ r ∈ out, r ∈ acc ∨ ∃ hp ∈ hyps,
      llm_row_of contentJ scores log_get refIndex hp = Except.ok (some r) := by
  induction hyps generalizing acc with
  | nil =>
    rw [List.foldlM_nil] at h
    have hacc : acc = out := by
      simpa [Pure.pure, Except.pure] using h
    intro r hr
    exact Or.inl (hacc ▸ hr)
  | cons hp t ih =>
    rw [List.foldlM_cons] at h
    cases hrow : llm_row_of contentJ scores log_get refIndex hp with
    | error e =>
      rw [hrow] at h
      exact absurd h (by simp [Except.map, Bind.bind, Except.bind])
    | ok row? =>
      rw [hrow] at h
      simp only [Except.map, Bind.bind, Except.bind] at h
      cases row? with
      | none =>
        intro r hr
        rcases ih acc h r hr with h1 | ⟨x, hx, hl⟩
        · exact Or.inl h1
        · exact Or.inr ⟨x, List.mem_cons_of_mem hp hx, hl⟩
      | some row =>
        intro r hr
        rcases ih (acc ++ [row]) h r hr with h1 | ⟨x, hx, hl⟩
        · rcases List.mem_append.mp h1 with hin | hin
          · exact Or.inl hin
          · have hrrow : r = row := by simpa using hin
            exact Or.inr ⟨hp, List.mem_cons_self hp t, hrrow ▸ hrow⟩
        · exact Or.inr ⟨x, List.mem_cons_of_mem hp hx, hl⟩

theorem llm_rows_error_of_mem (contentJ : String → Option JVal)
    (scores : List String → String → List ℚ) (log_get : String → ℚ)
    (refIndex : List (String × List String)) (hyps : List String)
    (hp : String) (e : String) (acc : List LLMRow)
    (hmem : hp ∈ hyps)
    (herr : llm_row_of contentJ scores log_get refIndex hp = Except.error e) :
    ∃ e', hyps.foldlM
        (fun acc hp =>
          (llm_row_of contentJ scores log_get refIndex hp).map
            (fun row? =>
              match row? with
              | none => acc
              | some row => acc ++ [row])) acc = Except.error e' := by
  induction hyps generalizing acc with
  | nil => exact absurd hmem (List.not_mem_nil hp)
  | cons x t ih =>
    rw [List.foldlM_cons]
    cases hrx : llm_row_of contentJ scores log_get refIndex x with
    | error e2 =>
      exact ⟨e2, rfl⟩
    | ok row? =>
      rcases List.mem_cons.mp hmem with heq | ht
      · subst heq
        rw [herr] at hrx
        exact absurd hrx (by simp)
      · cases row? with
        | none =>
          obtain ⟨e', he'⟩ := ih acc ht
          exact ⟨e', he'⟩
        | some row =>
          obtain ⟨e', he'⟩ := ih (acc ++ [row]) ht
          exact ⟨e', he'⟩

theorem foldlM_middle_skip {β : Type _} (f : β → String → Except String β)
    (l1 l2 : List String) (h : String) (hstep : ∀ acc, f acc h = Except.ok acc)
    (init : β) :
    (l1 ++ h :: l2).foldlM f init = (l1 ++ l2).foldlM f init := by
  rw [List.foldlM_append, List.foldlM_append]
  cases hl1 : l1.foldlM f init with
  | error e => rfl
  | ok a =>
    simp only [Bind.bind, Except.bind, List.foldlM_cons, hstep a]

theorem llm_metrics_skip_unmatched (contentJ : String → Option JVal)
    (scores : List String → String → List ℚ) (log_get : String → ℚ)
    (refs : List String) (l1 l2 : List String) (h : String)
    (hno : ∀ r ∈ refs, path_stem r ≠ path_stem h) :
    LLMProcessor_metrics_rows contentJ scores log_get refs (l1 ++ h :: l2) =
      LLMProcessor_metrics_rows contentJ scores log_get refs (l1 ++ l2) := by
  rw [LLMProcessor_metrics_rows, LLMProcessor_metrics_rows]
  refine foldlM_middle_skip _ l1 l2 h ?_ []
  intro acc
  rw [llm_row_of, (refIndex_lookup_none_iff refs (path_stem h)).mpr hno]
  rfl

theorem llm_row_of_some_inv (contentJ : String → Option JVal)
    (scores : List String → String → List ℚ) (log_get : String → ℚ)
    (refs : List String) (h : String) (r : LLMRow)
    (hrow : llm_row_of contentJ scores log_get (buildRefIndex refs) h =
      Except.ok (some r)) :
    r.file_name = path_stem h ∧
    (∃ t, _extract_text_from_summary_file (contentJ h) = Except.ok t ∧ t.length ≠ 0) ∧
    (∃ rp ∈ refs, path_stem rp = path_stem h ∧
      ∃ tr, _extract_text_from_summary_file (contentJ rp) = Except.ok tr ∧
        tr.length ≠ 0) := by
  rw [llm_row_of] at hrow
  cases hlk : lookupEvent (buildRefIndex refs) (path_stem h) with
  | none =>
    rw [hlk] at hrow
    exact absurd hrow (by simp)
  | some ref_paths =>
    rw [hlk] at hrow
    have hcore : llm_row_core contentJ scores log_get h ref_paths =
        Except.ok (some r) := hrow
    rw [llm_row_core] at hcore
    simp only [Bind.bind] at hcore
    cases hmr : ref_paths.mapM (fun rp => _extract_text_from_summary_file (contentJ rp)) with
    | error e =>
      rw [hmr] at hcore
      exact absurd hcore (by simp [Except.bind])
    | ok refTexts =>
      rw [hmr] at hcore
      dsimp only [Except.bind] at hcore
      cases hhe : _extract_text_from_summary_file (contentJ h) with
      | error e =>
        rw [hhe] at hcore
        exact absurd hcore (by simp [Except.bind])
      | ok hyp =>
        rw [hhe] at hcore
        dsimp only [Except.bind] at hcore
        by_cases hcond :
            hyp.length = 0 ∨ (refTexts.filter (fun x => 0 < x.length)).length = 0
        · rw [if_pos hcond] at hcore
          exact absurd hcore (by simp)
        · rw [if_neg hcond] at hcore
          push_neg at hcond
          obtain ⟨hhyp, hrefs⟩ := hcond
          cases hpp : _parse_file_path h with
          | error e =>
            rw [hpp] at hcore
            exact absurd hcore (by simp [Except.bind])
          | ok idp =>
            rw [hpp] at hcore
            dsimp only [Except.bind] at hcore
            have hr : r = ⟨idp.1, idp.2.1, idp.2.2,
                scores (refTexts.filter (fun x => 0 < x.length)) hyp,
                log_get (path_stem h)⟩ := by
              injection hcore with h1
              injection h1 with h2
              exact h2.symm
            refine ⟨?_, ⟨hyp, rfl, hhyp⟩, ?_⟩
            · rw [hr]
              exact parse_file_path_fst h idp hpp
            · have hpos : 0 < (refTexts.filter (fun x => 0 < x.length)).length :=
                Nat.pos_of_ne_zero hrefs
              obtain ⟨t, htmem⟩ := List.exists_mem_of_length_pos hpos
              obtain ⟨htref, htlen⟩ := List.mem_filter.mp htmem
              obtain ⟨rp, hrpmem, hrpok⟩ := mapM_ok_mem _ ref_paths refTexts hmr t htref
              obtain ⟨hrprefs, hrpstem⟩ :=
                refIndex_lookup_some_mem refs (path_stem h) ref_paths hlk rp hrpmem
              exact ⟨rp, hrprefs, hrpstem, t, hrpok,
                Nat.pos_iff_ne_zero.mp (by simpa using htlen)⟩

/-- Claim C4: a metrics row is emitted only for a hypothesis file with a
matching reference — exact filename match for ASR, stem match for LLM —
and, in the LLM domain, only when the hypothesis extracts to non-empty
text and at least one of its references extracts to non-empty text; a
hypothesis with no matching reference contributes zero rows and causes no
exception in either domain: the ASR iteration yields `none` (a warning is
logged, the loop continues — the whole ASR metrics run is a total
function), and the LLM run is unchanged by removing such a hypothesis —
in particular its content is never even extracted. -/
theorem metrics_row_invariant (scores_asr : String → String → List ℚ)
    (content : String → String) (contentJ : String → Option JVal)
    (scores_llm : List String → String → List ℚ) (log_get : String → ℚ)
    (logs_data : List LogData)
    (reference_files hypotheses_files ref_json hyp_json : List String) :
    (∀ row ∈ (ASRProcessor_metrics scores_asr content reference_files hypotheses_files
        logs_data).1,
      ∃ h ∈ hypotheses_files, row.file_name = path_name h ∧
        ∃ r ∈ reference_files, path_name r = path_name h) ∧
    (∀ h, (∀ r ∈ reference_files, path_name r ≠ path_name h) →
      asr_metrics_row scores_asr content (name_to_reference_file reference_files)
        (file_name_to_log_data logs_data) h = none) ∧
    (∀ rows, LLMProcessor_metrics_rows contentJ scores_llm log_get ref_json hyp_json =
        Except.ok rows →
      ∀ row ∈ rows, ∃ h ∈ hyp_json, row.file_name = path_stem h ∧
        (∃ t, _extract_text_from_summary_file (contentJ h) = Except.ok t ∧
          t.length ≠ 0) ∧
        (∃ r ∈ ref_json, path_stem r = path_stem h ∧
          ∃ tr, _extract_text_from_summary_file (contentJ r) = Except.ok tr ∧
            tr.length ≠ 0)) ∧
    (∀ h l1 l2, (∀ r ∈ ref_json, path_stem r ≠ path_stem h) →
      LLMProcessor_metrics_rows contentJ scores_llm log_get ref_json (l1 ++ h :: l2) =
        LLMProcessor_metrics_rows contentJ scores_llm log_get ref_json (l1 ++ l2)) := by
  refine ⟨?_, ?_, ?_, ?_⟩
  · intro row hrow
    rw [ASRProcessor_metrics, ASRProcessor_metrics_loop,
      asr_metrics_loop_invariant] at hrow
    simp only [List.nil_append] at hrow
    obtain ⟨h, hh, hsome⟩ := List.mem_filterMap.mp hrow
    rw [asr_metrics_row] at hsome
    cases hlk : lookupEvent (name_to_reference_file reference_files) (path_name h) with
    | none =>
      rw [hlk] at hsome
      exact absurd hsome (by simp)
    | some reference_file =>
      rw [hlk] at hsome
      injection hsome with hsome'
      obtain ⟨hmem, hname⟩ :=
        lookup_name_map_some_mem reference_files (path_name h) reference_file hlk
      refine ⟨h, hh, ?_, reference_file, hmem, hname⟩
      rw [← hsome']
  · intro h hno
    rw [asr_metrics_row, (lookup_name_map_none_iff reference_files (path_name h)).mpr hno]
  · intro rows hok row hrow
    rcases llm_rows_sound contentJ scores_llm log_get (buildRefIndex ref_json) hyp_json
        [] rows hok row hrow with h1 | ⟨hp, hhp, hl⟩
    · exact absurd h1 (List.not_mem_nil row)
    · obtain ⟨hfn, hhyp, href⟩ :=
        llm_row_of_some_inv contentJ scores_llm log_get ref_json hp row hl
      exact ⟨hp, hhp, hfn, hhyp, href⟩
  · intro h l1 l2 hno
    exact llm_metrics_skip_unmatched contentJ scores_llm log_get ref_json l1 l2 h hno

/-- Witness for `metrics_row_invariant`: an unmatched ASR hypothesis
contributes no row, and an unmatched LLM hypothesis leaves the run
unchanged. -/
theorem metrics_row_invariant_witness :
    asr_metrics_row (fun _ _ => []) (fun _ => "")
      (name_to_reference_file ["r/a.txt"]) (file_name_to_log_data []) "h/b.txt" = none ∧
    LLMProcessor_metrics_rows (fun _ => none) (fun _ _ => []) (fun _ => 0) ["r/a.json"]
        ([] ++ "h/b.json" :: []) =
      LLMProcessor_metrics_rows (fun _ => none) (fun _ _ => []) (fun _ => 0) ["r/a.json"]
        ([] ++ []) :=
  ⟨(metrics_row_invariant (fun _ _ => []) (fun _ => "") (fun _ => none) (fun _ _ => [])
      (fun _ => 0) [] ["r/a.txt"] [] ["r/a.json"] []).2.1 "h/b.txt" (by decide),
   (metrics_row_invariant (fun _ _ => []) (fun _ => "") (fun _ => none) (fun _ _ => [])
      (fun _ => 0) [] ["r/a.txt"] [] ["r/a.json"] []).2.2.2 "h/b.json" [] []
      (by decide)⟩

/-- A well-formed summary JSON used in concrete runs. -/
def demoObj : JVal :=
  JVal.obj [("title", JVal.str "t"), ("tldr", JVal.str "s"),
    ("resume", JVal.arr []), ("conclusion", JVal.str "c")]

/-- The number a decimal-digit string denotes. -/
def stringToNat (s : String) : Nat :=
  s.toList.foldl (fun n c => n * 10 + (c.toNat - 48)) 0

theorem rowKeyLE_trans (a b c : LLMRow) (hab : rowKeyLE a b = true)
    (hbc : rowKeyLE b c = true) : rowKeyLE a c = true := by
  simp only [rowKeyLE, decide_eq_true_eq] at hab hbc ⊢
  rcases hab with h1 | ⟨he1, h1⟩
  · rcases hbc with h2 | ⟨he2, _⟩
    · exact Or.inl (lt_trans h1 h2)
    · exact Or.inl (he2 ▸ h1)
  · rcases hbc with h2 | ⟨he2, h2⟩
    · exact Or.inl (he1 ▸ h2)
    · refine Or.inr ⟨he1.trans he2, ?_⟩
      rcases h1 with h1 | h1
      · rcases h2 with h2 | h2
        · exact Or.inl (lt_trans h1 h2)
        · exact Or.inl (h2 ▸ h1)
      · rcases h2 with h2 | h2
        · exact Or.inl (h1 ▸ h2)
        · exact Or.inr (h1.trans h2)

theorem rowKeyLE_total (a b : LLMRow) : (rowKeyLE a b || rowKeyLE b a) = true := by
  simp only [rowKeyLE, Bool.or_eq_true, decide_eq_true_eq]
  rcases lt_trichotomy a.time_in_minute b.time_in_minute with h | h | h
  · exact Or.inl (Or.inl h)
  · rcases lt_trichotomy a.person_count b.person_count with h2 | h2 | h2
    · exact Or.inl (Or.inr ⟨h, Or.inl h2⟩)
    · exact Or.inl (Or.inr ⟨h, Or.inr h2⟩)
    · exact Or.inr (Or.inr ⟨h.symm, Or.inl h2⟩)
  · exact Or.inr (Or.inl h)

theorem filterMap_map_sublist {α β γ : Type _} (l : List α) (f : α → Option β)
    (g : β → γ) (hmap : α → γ) (hc : ∀ x r, f x = some r → g r = hmap x) :
    List.Sublist ((l.filterMap f).map g) (l.map hmap) := by
  induction l with
  | nil => simp
  | cons x t ih =>
    cases hx : f x with
    | none =>
      rw [List.map_cons, List.filterMap_cons, hx]
      exact List.Sublist.cons (hmap x) ih
    | some r =>
      rw [List.map_cons, List.filterMap_cons, hx, List.map_cons, hc x r hx]
      exact List.Sublist.cons₂ (hmap x) ih

unseal List.merge List.mergeSort String.ltb in
/-- Claim C5 counterexample: a run over two hypothesis files with durations
9 and 10 minutes (both with matching identical references).  The written
rows put the 10-minute row first — `"10" < "9"` as Python strings — so the
row order is not ascending in the numeric duration-in-minutes recovered
from the filename (the first row's duration 10 exceeds the second's 9). -/
theorem llm_sort_counterexample :
    LLMProcessor_metrics_csv (fun _ => some demoObj) (fun _ _ => []) (fun _ => 0)
        ["r/e.p.c.1_p.9_min.json", "r/e.p.c.1_p.10_min.json"]
        ["h/e.p.c.1_p.9_min.json", "h/e.p.c.1_p.10_min.json"] =
      some [⟨"e.p.c.1_p.10_min", "1", "10", [], 0⟩, ⟨"e.p.c.1_p.9_min", "1", "9", [], 0⟩] ∧
    stringToNat "9" < stringToNat "10" := by decide

/-- Claim C5 (amended): the rows written to the LLM `metrics.csv` are
sorted ascending by the pair of raw duration and person-count strings
recovered from the hypothesis filename, compared lexicographically as
Python strings (tuple comparison of `(x[2], x[1])`) — which coincides with
numeric ascending order only when the digit strings have equal length —
and they are a permutation of the rows the hypothesis loop emitted; ASR
metrics rows are written in discovery order: the row list is the in-order
`filterMap` of the per-hypothesis row over the discovered hypotheses,
whose file-name column is a sublist of the discovered names in order. -/
theorem metrics_row_order (contentJ : String → Option JVal)
    (scores_llm : List String → String → List ℚ) (log_get : String → ℚ)
    (ref_json hyp_json : List String) (scores_asr : String → String → List ℚ)
    (content : String → String) (reference_files hypotheses_files : List String)
    (logs_data : List LogData) :
    (∀ rows, LLMProcessor_metrics_csv contentJ scores_llm log_get ref_json hyp_json =
        some rows →
      List.Pairwise (fun a b => rowKeyLE a b = true) rows ∧
      ∃ pre, LLMProcessor_metrics_rows contentJ scores_llm log_get ref_json hyp_json =
        Except.ok pre ∧ rows.Perm pre) ∧
    (ASRProcessor_metrics scores_asr content reference_files hypotheses_files
        logs_data).1 =
      hypotheses_files.filterMap
        (asr_metrics_row scores_asr content (name_to_reference_file reference_files)
          (file_name_to_log_data logs_data)) ∧
    List.Sublist
      (((ASRProcessor_metrics scores_asr content reference_files hypotheses_files
          logs_data).1).map ASRRow.file_name)
      (hypotheses_files.map path_name) := by
  have hasr : (ASRProcessor_metrics scores_asr content reference_files hypotheses_files
      logs_data).1 =
      hypotheses_files.filterMap
        (asr_metrics_row scores_asr content (name_to_reference_file reference_files)
          (file_name_to_log_data logs_data)) := by
    rw [ASRProcessor_metrics, ASRProcessor_metrics_loop, asr_metrics_loop_invariant]
    simp
  refine ⟨?_, hasr, ?_⟩
  · intro rows hrows
    rw [LLMProcessor_metrics_csv] at hrows
    cases hpre : LLMProcessor_metrics_rows contentJ scores_llm log_get ref_json hyp_json with
    | error e =>
      rw [hpre] at hrows
      exact absurd hrows (by simp)
    | ok pre =>
      rw [hpre] at hrows
      have hr : rows = pre.mergeSort rowKeyLE := by
        injection hrows with h'
        exact h'.symm
      subst hr
      exact ⟨List.sorted_mergeSort rowKeyLE_trans rowKeyLE_total pre,
        pre, rfl, List.mergeSort_perm pre rowKeyLE⟩
  · rw [hasr]
    refine filterMap_map_sublist hypotheses_files _ _ _ ?_
    intro x r hx
    rw [asr_metrics_row] at hx
    cases hlk : lookupEvent (name_to_reference_file reference_files) (path_name x) with
    | none =>
      rw [hlk] at hx
      exact absurd hx (by simp)
    | some rf =>
      rw [hlk] at hx
      injection hx with hx'
      rw [← hx']

unseal List.merge List.mergeSort String.ltb in
/-- Witness for `metrics_row_order`: the sortedness conclusion at the
concrete two-duration run. -/
theorem metrics_row_order_witness :
    List.Pairwise (fun a b => rowKeyLE a b = true)
      [(⟨"e.p.c.1_p.10_min", "1", "10", [], 0⟩ : LLMRow),
       ⟨"e.p.c.1_p.9_min", "1", "9", [], 0⟩] ∧
    ∃ pre, LLMProcessor_metrics_rows (fun _ => some demoObj) (fun _ _ => []) (fun _ => 0)
        ["r/e.p.c.1_p.9_min.json", "r/e.p.c.1_p.10_min.json"]
        ["h/e.p.c.1_p.9_min.json", "h/e.p.c.1_p.10_min.json"] = Except.ok pre ∧
      List.Perm [(⟨"e.p.c.1_p.10_min", "1", "10", [], 0⟩ : LLMRow),
        ⟨"e.p.c.1_p.9_min", "1", "9", [], 0⟩] pre :=
  (metrics_row_order (fun _ => some demoObj) (fun _ _ => []) (fun _ => 0)
    ["r/e.p.c.1_p.9_min.json", "r/e.p.c.1_p.10_min.json"]
    ["h/e.p.c.1_p.9_min.json", "h/e.p.c.1_p.10_min.json"]
    (fun _ _ => []) (fun _ => "") [] [] []).1
    [⟨"e.p.c.1_p.10_min", "1", "10", [], 0⟩, ⟨"e.p.c.1_p.9_min", "1", "9", [], 0⟩]
    (by decide)

theorem length_append (a b : String) : (a ++ b).length = a.length + b.length := by
  show (a.toList ++ b.toList).length = _
  rw [List.length_append]
  rfl

theorem joinSpace_cons_cons_length (x y : String) (l : List String) :
    (joinSpace (x :: y :: l)).length ≠ 0 := by
  show (x ++ " " ++ joinSpace (y :: l)).length ≠ 0
  rw [length_append, length_append]
  have hsp : (" " : String).length = 1 := rfl
  intro hcontra
  omega

theorem jJoinStr_length (xs : List JVal) (out : List String)
    (h : jJoinStr xs = Except.ok out) : out.length = xs.length := by
  induction xs generalizing out with
  | nil =>
    rw [jJoinStr] at h
    injection h with h'
    rw [← h']
    rfl
  | cons x t ih =>
    cases x with
    | str s =>
      rw [jJoinStr] at h
      cases ht : jJoinStr t with
      | error e =>
        rw [ht] at h
        exact absurd h (by simp [Except.map])
      | ok outt =>
        rw [ht] at h
        have hout : out = s :: outt := by
          simp only [Except.map] at h
          injection h with h'
          exact h'.symm
        subst hout
        simp [ih outt ht]
    | num q => exact absurd h (by simp [jJoinStr])
    | jbool b => exact absurd h (by simp [jJoinStr])
    | null => exact absurd h (by simp [jJoinStr])
    | arr xs2 => exact absurd h (by simp [jJoinStr])
    | obj fs => exact absurd h (by simp [jJoinStr])

theorem extract_empty_only_undecodable (content : Option JVal) (s : String)
    (h : _extract_text_from_summary_file content = Except.ok s) (hs : s.length = 0) :
    content = none := by
  cases content with
  | none => rfl
  | some v =>
    exfalso
    rw [_extract_text_from_summary_file] at h
    simp only [Bind.bind] at h
    cases h1 : jGetItem v "title" with
    | error e => rw [h1] at h; exact absurd h (by simp [Except.bind])
    | ok title =>
      rw [h1] at h
      dsimp only [Except.bind] at h
      cases h2 : jGetItem v "tldr" with
      | error e => rw [h2] at h; exact absurd h (by simp [Except.bind])
      | ok tldr =>
        rw [h2] at h
        dsimp only [Except.bind] at h
        cases h3 : jGetItem v "resume" with
        | error e => rw [h3] at h; exact absurd h (by simp [Except.bind])
        | ok resume =>
          rw [h3] at h
          dsimp only [Except.bind] at h
          cases h4 : jIter resume with
          | error e => rw [h4] at h; exact absurd h (by simp [Except.bind])
          | ok resumeItems =>
            rw [h4] at h
            dsimp only [Except.bind] at h
            cases h5 : jGetItem v "conclusion" with
            | error e => rw [h5] at h; exact absurd h (by simp [Except.bind])
            | ok conclusion =>
              rw [h5] at h
              dsimp only [Except.bind] at h
              cases h6 : jJoinStr ([title, tldr] ++ resumeItems ++ [conclusion]) with
              | error e => rw [h6] at h; exact absurd h (by simp [Except.bind])
              | ok parts =>
                rw [h6] at h
                dsimp only [Except.bind] at h
                have hparts : parts.length = 2 + resumeItems.length + 1 := by
                  rw [jJoinStr_length _ _ h6]
                  simp only [List.length_append, List.length_cons, List.length_nil]
                have hjs : joinSpace parts = s := by
                  injection h
                cases parts with
                | nil => simp at hparts
                | cons p1 rest =>
                  cases rest with
                  | nil => simp at hparts
                  | cons p2 rest2 =>
                    exact joinSpace_cons_cons_length p1 p2 rest2 (hjs ▸ hs)

theorem extract_obj_error_of_bad (fields : List (String × JVal))
    (hbad : fields.lookup "title" = none ∨ fields.lookup "tldr" = none ∨
      fields.lookup "resume" = none ∨ fields.lookup "conclusion" = none ∨
      (∃ rv e', fields.lookup "resume" = some rv ∧ jIter rv = Except.error e')) :
    ∃ e, _extract_text_from_summary_file (some (JVal.obj fields)) = Except.error e := by
  rw [_extract_text_from_summary_file]
  simp only [Bind.bind]
  cases h1 : fields.lookup "title" with
  | none => exact ⟨"KeyError: title", by rw [jGetItem, h1]; rfl⟩
  | some title =>
    have hg1 : jGetItem (JVal.obj fields) "title" = Except.ok title := by
      rw [jGetItem, h1]
    rw [hg1]
    dsimp only [Except.bind]
    cases h2 : fields.lookup "tldr" with
    | none => exact ⟨"KeyError: tldr", by rw [jGetItem, h2]; rfl⟩
    | some tldr =>
      have hg2 : jGetItem (JVal.obj fields) "tldr" = Except.ok tldr := by
        rw [jGetItem, h2]
      rw [hg2]
      dsimp only [Except.bind]
      cases h3 : fields.lookup "resume" with
      | none => exact ⟨"KeyError: resume", by rw [jGetItem, h3]; rfl⟩
      | some resume =>
        have hg3 : jGetItem (JVal.obj fields) "resume" = Except.ok resume := by
          rw [jGetItem, h3]
        rw [hg3]
        dsimp only [Except.bind]
        cases h4 : jIter resume with
        | error e => exact ⟨e, rfl⟩
        | ok items =>
          cases h5 : fields.lookup "conclusion" with
          | none => exact ⟨"KeyError: conclusion", by rw [jGetItem, h5]; rfl⟩
          | some conclusion =>
            exfalso
            rcases hbad with hb | hb | hb | hb | ⟨rv, e', hrv, hiter⟩
            · rw [h1] at hb; exact absurd hb (by simp)
            · rw [h2] at hb; exact absurd hb (by simp)
            · rw [h3] at hb; exact absurd hb (by simp)
            · rw [h5] at hb; exact absurd hb (by simp)
            · rw [h3] at hrv
              injection hrv with hrv'
              rw [hrv'] at h4
              rw [h4] at hiter
              exact absurd hiter (by simp)

theorem llm_row_of_error_of_extract_error (contentJ : String → Option JVal)
    (scores : List String → String → List ℚ) (log_get : String → ℚ)
    (refs : List String) (h : String) (rps : List String) (e : String)
    (hlk : lookupEvent (buildRefIndex refs) (path_stem h) = some rps)
    (hrefs : ∀ rp ∈ rps, ∃ t, _extract_text_from_summary_file (contentJ rp) = Except.ok t)
    (hhe : _extract_text_from_summary_file (contentJ h) = Except.error e) :
    llm_row_of contentJ scores log_get (buildRefIndex refs) h = Except.error e := by
  rw [llm_row_of, hlk]
  show llm_row_core contentJ scores log_get h rps = Except.error e
  rw [llm_row_core]
  simp only [Bind.bind]
  obtain ⟨out, hout⟩ := mapM_ok_of_all_ok _ rps hrefs
  rw [hout]
  dsimp only [Except.bind]
  rw [hhe]

theorem llm_metrics_rows_error_of_row_error (contentJ : String → Option JVal)
    (scores : List String → String → List ℚ) (log_get : String → ℚ)
    (refs hyps : List String) (h : String) (e : String)
    (hmem : h ∈ hyps)
    (herr : llm_row_of contentJ scores log_get (buildRefIndex refs) h = Except.error e) :
    (∃ e', LLMProcessor_metrics_rows contentJ scores log_get refs hyps =
      Except.error e') ∧
    LLMProcessor_metrics_csv contentJ scores log_get refs hyps = none := by
  obtain ⟨e', he'⟩ := llm_rows_error_of_mem contentJ scores log_get (buildRefIndex refs)
    hyps h e [] hmem herr
  have hrows : LLMProcessor_metrics_rows contentJ scores log_get refs hyps =
      Except.error e' := he'
  exact ⟨⟨e', hrows⟩, by rw [LLMProcessor_metrics_csv, hrows]⟩

/-- Claim C9: the LLM summary-text extraction returns empty text only when
the file content is not parseable JSON (the caught `JSONDecodeError`); a
file that is valid JSON but is missing any of the keys `title`, `tldr`,
`resume` or `conclusion`, or whose `resume` is not iterable, makes the
extraction raise an uncaught exception; when such a file is a processed
hypothesis (its stem matched, its references extracting cleanly), the
exception propagates out of the hypothesis loop and aborts the entire
`llm metrics` run with no CSV written.  The final conjunct exhibits a
complete concrete run: one valid reference and one valid-JSON hypothesis
missing `title` — no `metrics.csv` is produced. -/
theorem llm_extract_error_containment (contentJ : String → Option JVal)
    (scores : List String → String → List ℚ) (log_get : String → ℚ)
    (refs hyps : List String) :
    (∀ content s, _extract_text_from_summary_file content = Except.ok s →
      s.length = 0 → content = none) ∧
    (∀ fields, (fields.lookup "title" = none ∨ fields.lookup "tldr" = none ∨
        fields.lookup "resume" = none ∨ fields.lookup "conclusion" = none ∨
        (∃ rv e', fields.lookup "resume" = some rv ∧ jIter rv = Except.error e')) →
      ∃ e, _extract_text_from_summary_file (some (JVal.obj fields)) = Except.error e) ∧
    (∀ h rps e, h ∈ hyps →
      lookupEvent (buildRefIndex refs) (path_stem h) = some rps →
      (∀ rp ∈ rps, ∃ t, _extract_text_from_summary_file (contentJ rp) = Except.ok t) →
      _extract_text_from_summary_file (contentJ h) = Except.error e →
      (∃ e', LLMProcessor_metrics_rows contentJ scores log_get refs hyps =
        Except.error e') ∧
      LLMProcessor_metrics_csv contentJ scores log_get refs hyps = none) ∧
    LLMProcessor_metrics_csv
      (fun p => if p = "h/x.json" then some (JVal.obj [("tldr", JVal.str "s")])
        else some demoObj)
      (fun _ _ => []) (fun _ => 0) ["r/x.json"] ["h/x.json"] = none := by
  refine ⟨extract_empty_only_undecodable, extract_obj_error_of_bad, ?_, by decide⟩
  intro h rps e hmem hlk hrefs hhe
  exact llm_metrics_rows_error_of_row_error contentJ scores log_get refs hyps h e hmem
    (llm_row_of_error_of_extract_error contentJ scores log_get refs h rps e hlk hrefs hhe)

/-- Witness for `llm_extract_error_containment`: the missing-key conjunct
applied to a concrete object lacking `title`, and the propagation conjunct
applied to the concrete one-reference one-hypothesis run. -/
theorem llm_extract_error_containment_witness :
    (∃ e, _extract_text_from_summary_file
      (some (JVal.obj [("tldr", JVal.str "s")])) = Except.error e) ∧
    ((∃ e', LLMProcessor_metrics_rows
        (fun p => if p = "h/x.json" then some (JVal.obj [("tldr", JVal.str "s")])
          else some demoObj)
        (fun _ _ => []) (fun _ => 0) ["r/x.json"] ["h/x.json"] = Except.error e') ∧
      LLMProcessor_metrics_csv
        (fun p => if p = "h/x.json" then some (JVal.obj [("tldr", JVal.str "s")])
          else some demoObj)
        (fun _ _ => []) (fun _ => 0) ["r/x.json"] ["h/x.json"] = none) :=
  ⟨(llm_extract_error_containment (fun _ => none) (fun _ _ => []) (fun _ => 0) [] []).2.1
      [("tldr", JVal.str "s")] (Or.inl rfl),
   (llm_extract_error_containment
      (fun p => if p = "h/x.json" then some (JVal.obj [("tldr", JVal.str "s")])
        else some demoObj)
      (fun _ _ => []) (fun _ => 0) ["r/x.json"] ["h/x.json"]).2.2.1
      "h/x.json" ["r/x.json"] "KeyError: title" (by decide) (by decide)
      (by
        intro rp hrp
        simp only [List.mem_singleton] at hrp
        subst hrp
        exact ⟨"t s c", by decide⟩)
      (by decide)⟩

theorem mapM_ok_mem_rev {α β : Type _} (f : α → Except String β) (l : List α)
    (out : List β) (h : l.mapM f = Except.ok out) (x : α) (hx : x ∈ l) (y : β)
    (hfy : f x = Except.ok y) : y ∈ out := by
  induction l generalizing out with
  | nil => exact absurd hx (List.not_mem_nil x)
  | cons z t ih =>
    rw [List.mapM_cons] at h
    cases hz : f z with
    | error e =>
      rw [hz] at h
      exact absurd h (by simp [Bind.bind, Except.bind])
    | ok y0 =>
      rw [hz] at h
      cases ht : t.mapM f with
      | error e =>
        rw [ht] at h
        exact absurd h (by simp [Bind.bind, Except.bind, Pure.pure, Except.pure])
      | ok outt =>
        rw [ht] at h
        have hout : out = y0 :: outt := by
          simp only [Bind.bind, Except.bind, Pure.pure, Except.pure] at h
          injection h with h'
          exact h'.symm
        subst hout
        rcases List.mem_cons.mp hx with hxz | hxt
        · subst hxz
          rw [hfy] at hz
          injection hz with hz'
          exact List.mem_cons.mpr (Or.inl hz')
        · exact List.mem_cons.mpr (Or.inr (ih outt ht hxt))

theorem parse_file_path_error_of_short (h : String)
    (hseg : (splitOnChar '.' (path_stem h).toList).length < 5) :
    ∃ e, _parse_file_path h = Except.error e := by
  rw [_parse_file_path]
  have h4 : (((splitOnChar '.' (path_stem h).toList).map String.mk)).get? 4 = none := by
    rw [List.get?_eq_none]
    rw [List.length_map]
    omega
  cases h3 : (((splitOnChar '.' (path_stem h).toList).map String.mk)).get? 3 with
  | none =>
    rw [h4]
    exact ⟨"IndexError: list index out of range", rfl⟩
  | some p3 =>
    rw [h4]
    exact ⟨"IndexError: list index out of range", rfl⟩

theorem llm_row_of_error_of_short_stem (contentJ : String → Option JVal)
    (scores : List String → String → List ℚ) (log_get : String → ℚ)
    (refs : List String) (h : String) (rps : List String)
    (hlk : lookupEvent (buildRefIndex refs) (path_stem h) = some rps)
    (hrefs : ∀ rp ∈ rps, ∃ t, _extract_text_from_summary_file (contentJ rp) = Except.ok t)
    (hrefne : ∃ rp ∈ rps, ∃ t, _extract_text_from_summary_file (contentJ rp) =
      Except.ok t ∧ t.length ≠ 0)
    (hhyp : ∃ t, _extract_text_from_summary_file (contentJ h) = Except.ok t ∧
      t.length ≠ 0)
    (hseg : (splitOnChar '.' (path_stem h).toList).length < 5) :
    ∃ e, llm_row_of contentJ scores log_get (buildRefIndex refs) h =
      Except.error e := by
  obtain ⟨epp, hpp⟩ := parse_file_path_error_of_short h hseg
  obtain ⟨out, hout⟩ := mapM_ok_of_all_ok _ rps hrefs
  obtain ⟨ht, hhe, hht⟩ := hhyp
  obtain ⟨rp, hrpmem, tr, htr, htrne⟩ := hrefne
  refine ⟨epp, ?_⟩
  rw [llm_row_of, hlk]
  show llm_row_core contentJ scores log_get h rps = Except.error epp
  rw [llm_row_core]
  simp only [Bind.bind]
  rw [hout]
  dsimp only [Except.bind]
  rw [hhe]
  dsimp only [Except.bind]
  have hcond : ¬ (ht.length = 0 ∨ (out.filter (fun x => 0 < x.length)).length = 0) := by
    push_neg
    refine ⟨hht, ?_⟩
    have htrout : tr ∈ out := mapM_ok_mem_rev _ rps out hout rp hrpmem tr htr
    have htrfil : tr ∈ out.filter (fun x => 0 < x.length) :=
      List.mem_filter.mpr ⟨htrout, by simpa using Nat.pos_of_ne_zero htrne⟩
    intro hlen
    rw [List.length_eq_zero] at hlen
    rw [hlen] at htrfil
    exact absurd htrfil (List.not_mem_nil tr)
  rw [if_neg hcond, hpp]

unseal List.merge List.mergeSort String.ltb in
/-- Claim C10 counterexample: the hypothesis `h/x.json` has a matching
reference `r/x.json` that extracts to non-empty text, and its stem `x`
has one dot-separated segment (fewer than five) — yet the `llm metrics`
run completes and writes a (header-only) CSV rather than aborting with
`IndexError`, because the hypothesis's own content is undecodable JSON and
the iteration skips it before the filename-identity parse. -/
theorem llm_parse_identity_counterexample :
    LLMProcessor_metrics_csv (fun p => if p = "h/x.json" then none else some demoObj)
        (fun _ _ => []) (fun _ => 0) ["r/x.json"] ["h/x.json"] = some [] ∧
    (splitOnChar '.' (path_stem "h/x.json").toList).length < 5 ∧
    (∃ t, _extract_text_from_summary_file
        ((fun p => if p = "h/x.json" then none else some demoObj) "r/x.json") =
      Except.ok t ∧ t.length ≠ 0) := by
  refine ⟨by decide, by decide, ⟨"t s c", by decide, by decide⟩⟩

/-- Claim C10 (amended): the LLM metrics filename-identity parse requires
at least five dot-separated segments in the stem of every hypothesis that
reaches it — one with a matching reference extracting to non-empty text
AND whose own content extracts to non-empty text; for any such processed
hypothesis whose stem has fewer than five segments, indexing segments 3
and 4 raises `IndexError`, which propagates and aborts the entire
`llm metrics` run with no CSV written.  (A matching hypothesis whose own
text is empty — e.g. undecodable JSON — is skipped before the parse and
does not abort the run, as the counterexample shows.) -/
theorem llm_parse_identity_abort (contentJ : String → Option JVal)
    (scores : List String → String → List ℚ) (log_get : String → ℚ)
    (refs hyps : List String) (h : String) (rps : List String)
    (hmem : h ∈ hyps)
    (hlk : lookupEvent (buildRefIndex refs) (path_stem h) = some rps)
    (hrefs : ∀ rp ∈ rps, ∃ t, _extract_text_from_summary_file (contentJ rp) = Except.ok t)
    (hrefne : ∃ rp ∈ rps, ∃ t, _extract_text_from_summary_file (contentJ rp) =
      Except.ok t ∧ t.length ≠ 0)
    (hhyp : ∃ t, _extract_text_from_summary_file (contentJ h) = Except.ok t ∧
      t.length ≠ 0)
    (hseg : (splitOnChar '.' (path_stem h).toList).length < 5) :
    (∃ e, _parse_file_path h = Except.error e) ∧
    (∃ e', LLMProcessor_metrics_rows contentJ scores log_get refs hyps =
      Except.error e') ∧
    LLMProcessor_metrics_csv contentJ scores log_get refs hyps = none := by
  obtain ⟨e, herr⟩ := llm_row_of_error_of_short_stem contentJ scores log_get refs h rps
    hlk hrefs hrefne hhyp hseg
  obtain ⟨hrows, hcsv⟩ := llm_metrics_rows_error_of_row_error contentJ scores log_get
    refs hyps h e hmem herr
  exact ⟨parse_file_path_error_of_short h hseg, hrows, hcsv⟩

/-- Witness for `llm_parse_identity_abort`: a concrete run with one valid
reference/hypothesis pair whose shared stem `a.b.cx` has three segments —
the run aborts and writes no CSV. -/
theorem llm_parse_identity_abort_witness :
    (∃ e, _parse_file_path "h/a.b.cx.json" = Except.error e) ∧
    (∃ e', LLMProcessor_metrics_rows (fun _ => some demoObj) (fun _ _ => [])
      (fun _ => 0) ["r/a.b.cx.json"] ["h/a.b.cx.json"] = Except.error e') ∧
    LLMProcessor_metrics_csv (fun _ => some demoObj) (fun _ _ => [])
      (fun _ => 0) ["r/a.b.cx.json"] ["h/a.b.cx.json"] = none :=
  llm_parse_identity_abort (fun _ => some demoObj) (fun _ _ => []) (fun _ => 0)
    ["r/a.b.cx.json"] ["h/a.b.cx.json"] "h/a.b.cx.json" ["r/a.b.cx.json"]
    (by decide) (by decide)
    (by
      intro rp hrp
      simp only [List.mem_singleton] at hrp
      subst hrp
      exact ⟨"t s c", by decide⟩)
    ⟨"r/a.b.cx.json", by decide, "t s c", by decide, by decide⟩
    ⟨"t s c", by decide, by decide⟩
    (by decide)

end MasterASRLLM
